import Mathlib

/-!
# Verification of the allsides extractor pipeline (src/extractor.py)

Shallow embedding of the pipeline in `src/extractor.py`.  Files on disk are
modelled as association lists from names to logical contents (`FileContent`
abstracts the byte-level serialization, which is a deterministic function of
the logical content); the HTML-parsing and content-extraction primitives that
the spec treats as external collaborators (BeautifulSoup queries, the
`newspaper` library, `json.load` of foreign files) are oracle parameters.
Network calls are an oracle from URL to `FetchResult`; each stage additionally
returns the sequence of externally visible events (requests and sleeps) it
performed, and aborted stages return the partial state at the point of the
uncaught exception.
-/

/-- Result of one `requests.get`/`requests.post` call: a response with a status
code and body text, or a raised transport-level exception. -/
inductive FetchResult where
  | resp (code : Nat) (text : String)
  | exc (msg : String)
deriving DecidableEq, Repr

/-- Externally visible pipeline events: one network request (with its URL) or
one `time.sleep(delay)` call. -/
inductive Ev where
  | req (url : String)
  | sleep
deriving DecidableEq, Repr

/-- The `Roundup` namedtuple: one listing entry (title, url, topic, date). -/
structure Roundup where
  title : String
  url : String
  topic : String
  date : String
deriving DecidableEq, Repr

/-- The `Article` namedtuple embedded in a story (an `ArticleRef` in the spec). -/
structure ArticleRef where
  title : String
  side : String
  source : String
  url : String
deriving DecidableEq, Repr

/-- The `Story` namedtuple: the content of a persisted `story.json`. -/
structure StoryMeta where
  title : String
  tags : List String
  summary : String
  articles : List ArticleRef
deriving DecidableEq, Repr

/-- The dictionary produced by `parse_article` (newspaper extraction result),
the content of an `<idx>.json` artifact. -/
structure ArtJson where
  title : String
  text : String
  top_image : String
  images : List String
deriving DecidableEq, Repr

/-- Logical content of one on-disk file.  `html` is raw fetched markup,
`storyJson` a serialized `Story` record, `artJson` a serialized extraction
result, `errText` an error marker body. -/
inductive FileContent where
  | html (s : String)
  | storyJson (m : StoryMeta)
  | artJson (a : ArtJson)
  | errText (s : String)
deriving DecidableEq, Repr

/-- The files of one directory: an association list (name, content), no
duplicate semantics beyond first-match lookup and in-place overwrite. -/
abbrev Files := List (String × FileContent)

/-- Python `os.path.exists` within one directory. -/
def Files.existsF (fs : Files) (n : String) : Bool :=
  fs.any (fun p => p.1 == n)

/-- Read one file of a directory (`open(...).read()`), `none` if absent. -/
def Files.getF (fs : Files) (n : String) : Option FileContent :=
  (fs.find? (fun p => p.1 == n)).map (fun p => p.2)

/-- Python `open(path, "w")` followed by a full write: overwrite in place if the name
exists, otherwise create the file. -/
def Files.writeF : Files → String → FileContent → Files
  | [], n, c => [(n, c)]
  | p :: fs, n, c => if p.1 == n then (n, c) :: fs else p :: Files.writeF fs n c

/-- One story directory `<output>/story/<date>.<slug>` with its files. -/
structure StoryDir where
  name : String
  files : Files
deriving DecidableEq, Repr

/-- The story working area `<output>/story`, in `os.listdir` enumeration
order. -/
abbrev Stories := List StoryDir

/-- Does a story directory of this name exist? -/
def dirExistsS (ds : Stories) (n : String) : Bool :=
  ds.any (fun d => d.name == n)

/-- Python `os.makedirs(dir, exist_ok=True)`. -/
def mkdirS (ds : Stories) (n : String) : Stories :=
  if dirExistsS ds n then ds else ds ++ [⟨n, []⟩]

/-- Write one file inside the named story directory (the directory is always
created by the caller first, matching the `os.makedirs` preceding each
write). -/
def writeS : Stories → String → String → FileContent → Stories
  | [], _, _, _ => []
  | d :: ds, n, fname, c =>
    if d.name == n then ⟨d.name, d.files.writeF fname c⟩ :: ds
    else d :: writeS ds n fname c

/-- Python `os.path.exists(f"{story_dir}/{n}/{fname}")`. -/
def fileExistsS (ds : Stories) (n fname : String) : Bool :=
  ds.any (fun d => d.name == n && d.files.existsF fname)

/-- The roundup directory `<output>/roundups`: page index to page text. -/
abbrev RFiles := List (Nat × String)

/-- Overwrite-or-create for roundup page files. -/
def writeR : RFiles → Nat → String → RFiles
  | [], i, t => [(i, t)]
  | p :: fs, i, t => if p.1 == i then (i, t) :: fs else p :: writeR fs i t

/-- Python's `s.split(sep)` for a single-character separator, on the character
list of the string: always returns `count sep + 1` groups. -/
def splitChar (sep : Char) : List Char → List (List Char)
  | [] => [[]]
  | c :: rest =>
    match splitChar sep rest with
    | [] => [[]]
    | g :: gs => if c = sep then [] :: g :: gs else (c :: g) :: gs

/-- Python `int(c)` for a digit character. -/
def digitVal (c : Char) : Nat := c.toNat - 48

/-- Python `s.endswith(suf)` (computable on character lists). -/
def strEndsWith (s suf : String) : Bool :=
  List.isPrefixOf suf.data.reverse s.data.reverse

/-- Python string `<=`: lexicographic comparison by code point. -/
def charListLe : List Char → List Char → Bool
  | [], _ => true
  | _ :: _, [] => false
  | a :: as, b :: bs => if a = b then charListLe as bs else decide (a < b)

/-- Filename `f"{idx}.html"` of a raw fetched article page. -/
def artHtmlName (idx : Nat) : String := toString idx ++ ".html"

/-- Filename `f"{idx}.err"` of an article error marker. -/
def artErrName (idx : Nat) : String := toString idx ++ ".err"

/-- Filename `f"{idx}.json"` of an article extraction artifact. -/
def artJsonName (idx : Nat) : String := toString idx ++ ".json"

/-- Outcome of running one stage: the final state and event trace on normal
return, or the uncaught exception together with the state and trace at the
point it was raised (writes performed before an abort persist on disk). -/
inductive RunResult (σ : Type) where
  | ok (s : σ) (evs : List Ev)
  | err (msg : String) (s : σ) (evs : List Ev)
deriving DecidableEq, Repr

/-- Prefix a run's event trace with earlier events. -/
def prependEvs {σ : Type} (evs : List Ev) : RunResult σ → RunResult σ
  | .ok s e => .ok s (evs ++ e)
  | .err m s e => .err m s (evs ++ e)

/-- Number of network requests in an event trace. -/
def reqCount (evs : List Ev) : Nat :=
  (evs.filter (fun e => match e with | .req _ => true | .sleep => false)).length

mutual
/-- An event trace is paced when every request is followed by a sleep before
the next request is issued. -/
def paced : List Ev → Bool
  | [] => true
  | .sleep :: rest => paced rest
  | .req _ :: rest => pacedAfterReq rest

/-- Helper: scanning just after a request, the next request must come after a
sleep. -/
def pacedAfterReq : List Ev → Bool
  | [] => true
  | .sleep :: rest => paced rest
  | .req _ :: _ => false
end

/-! ## Stage 1: roundup collection (`download_roundups`, `process_roundups`) -/

/-- The listing page url `roundup_url(i)`. -/
def roundup_url (i : Nat) : String :=
  "https://www.allsides.com/headline-roundups?page=" ++ toString i

/-- The `for i in range(1, last_page + 1)` loop body of `download_roundups`:
fetch page `i`, persist it, then sleep the politeness delay. -/
def fetchPages (netPage : Nat → FetchResult) : List Nat → RFiles → RunResult RFiles
  | [], fs => .ok fs []
  | i :: rest, fs =>
    match netPage i with
    | .exc e => .err e fs []
    | .resp _ t =>
      prependEvs [.req (roundup_url i), .sleep] (fetchPages netPage rest (writeR fs i t))

/-- Function `download_roundups`: fetch page 0, persist it, look for the
"Go to last page" control (the `findLastPage` oracle stands for the
BeautifulSoup anchor scan); with no such control the Python loop never binds
`last_page` and the subsequent `range(1, last_page + 1)` raises `NameError`;
otherwise fetch pages `1..last_page`.  Note the stage never reads the existing
page files: it refetches everything on every run, and no sleep separates the
page-0 request from the page-1 request. -/
def download_roundups (netPage : Nat → FetchResult)
    (findLastPage : String → Option Nat) (fs : RFiles) : RunResult RFiles :=
  match netPage 0 with
  | .exc e => .err e fs []
  | .resp _ t0 =>
    let fs0 := writeR fs 0 t0
    match findLastPage t0 with
    | none => .err "NameError: last_page is not defined" fs0 [.req (roundup_url 0)]
    | some lastPage =>
      prependEvs [.req (roundup_url 0)] (fetchPages netPage (List.range' 1 lastPage) fs0)

/-- Non-decreasing date order on roundups (`key=lambda x: x[3]`). -/
def rdateLe (a b : Roundup) : Prop := charListLe a.date.data b.date.data = true

instance : DecidableRel rdateLe := fun _ _ => inferInstanceAs (Decidable (_ = true))

/-- Function `process_roundups`: run `download_roundups`, then parse every persisted
page (`parsePage` stands for the BeautifulSoup row scan of `parse_roundup`),
drop entries with an empty date, sort by date ascending, and write
`roundups.tsv` (returned here as the list of records the file holds).  An
abort of the download leaves no `roundups.tsv`. -/
def process_roundups (netPage : Nat → FetchResult) (findLastPage : String → Option Nat)
    (parsePage : String → List Roundup) (fs : RFiles) :
    RunResult (RFiles × Option (List Roundup)) :=
  match download_roundups netPage findLastPage fs with
  | .err m fs' evs => .err m (fs', none) evs
  | .ok fs' evs =>
    let roundups := (fs'.map (fun p => parsePage p.2)).flatten
    let index := (roundups.filter (fun r => r.date != "")).insertionSort rdateLe
    .ok (fs', some index) evs

/-! ## Stage 2: story fetch (`download_stories`) -/

/-- The story directory key `f"{story_dir}/{r.date}.{r.url.split('/')[2]}"`.
`none` when the url has fewer than two `/` separators, in which case the
Python subscript raises `IndexError`. -/
def storyDirName (r : Roundup) : Option String :=
  ((splitChar '/' r.url.toList).get? 2).map
    (fun slug => r.date ++ "." ++ String.mk slug)

/-- Function `download_stories`: for each roundup, derive the directory key, create the
directory, and fetch `story.html` unless it already exists and `redownload`
is off; the response text is persisted regardless of status code, and the
fetch is followed by the politeness sleep.  An `IndexError` from the key
derivation or a transport exception aborts the stage. -/
def download_stories (net : String → FetchResult) (redownload : Bool) :
    List Roundup → Stories → RunResult Stories
  | [], ds => .ok ds []
  | r :: rest, ds =>
    match storyDirName r with
    | none => .err "IndexError: list index out of range" ds []
    | some dname =>
      let ds1 := mkdirS ds dname
      if redownload || !(fileExistsS ds1 dname "story.html") then
        match net ("https://www.allsides.com" ++ r.url) with
        | .exc e => .err e ds1 []
        | .resp _ t =>
          prependEvs [.req ("https://www.allsides.com" ++ r.url), .sleep]
            (download_stories net redownload rest (writeS ds1 dname "story.html" (.html t)))
      else
        download_stories net redownload rest ds1

/-! ## Stage 2b: story extraction (`parse_all_stories`) -/

/-- Cons one processed directory onto the outcome of processing the remaining
directories. -/
def consDir (d : StoryDir) : RunResult Stories → RunResult Stories
  | .ok ds evs => .ok (d :: ds) evs
  | .err m ds evs => .err m (d :: ds) evs

/-- Function `parse_all_stories`: for each story directory lacking `story.json`, read
`story.html` and run `parse_story_html` (the `parse` oracle: `.ok none` is the
blank-roundup-page case that returns `None`, `.error` an uncaught parsing
exception, which aborts the stage since no `try` surrounds the call); a parsed
story is persisted as `story.json`.  Reading a missing `story.html` raises
`FileNotFoundError`. -/
def parse_all_stories (parse : String → Except String (Option StoryMeta)) :
    Stories → RunResult Stories
  | [] => .ok [] []
  | d :: rest =>
    if d.files.existsF "story.json" then
      consDir d (parse_all_stories parse rest)
    else
      match d.files.getF "story.html" with
      | none => .err "FileNotFoundError: story.html" (d :: rest) []
      | some (.html s) =>
        match parse s with
        | .error e => .err e (d :: rest) []
        | .ok none => consDir d (parse_all_stories parse rest)
        | .ok (some m) =>
          consDir ⟨d.name, d.files.writeF "story.json" (.storyJson m)⟩
            (parse_all_stories parse rest)
      | some _ => .err "story.html does not hold markup" (d :: rest) []

/-! ## Stage 3: article fetch (`download_articles`) -/

/-- The fetch guard of `download_articles`, verbatim:
`redownload or (retry_errors and os.path.exists(err_file)) or
(not os.path.exists(html_file) and not os.path.exists(err_file))`. -/
def shouldFetch (redownload retry_errors htmlExists errExists : Bool) : Bool :=
  redownload || (retry_errors && errExists) || (!htmlExists && !errExists)

/-- The per-article body of the `download_articles` loop: check the guard, and
on a fetch persist `<idx>.html` for a 200 response or `<idx>.err` for a non-200
response (`print(r, file=fout)` writes the `repr` of the response) or a
transport exception (`print(e, file=fout)`).  Neither write removes the
artifact of the other kind.  No sleep follows the request: the `delay`
parameter of `download_articles` is never used. -/
def fetchOne (net : String → FetchResult) (redownload retry_errors : Bool)
    (files : Files) (idx : Nat) (a : ArticleRef) : Files × List Ev :=
  if shouldFetch redownload retry_errors (files.existsF (artHtmlName idx))
      (files.existsF (artErrName idx)) then
    match net a.url with
    | .resp c t =>
      if c == 200 then (files.writeF (artHtmlName idx) (.html t), [.req a.url])
      else
        (files.writeF (artErrName idx)
          (.errText ("<Response [" ++ toString c ++ "]>")), [.req a.url])
    | .exc e => (files.writeF (artErrName idx) (.errText e), [.req a.url])
  else
    (files, [])

/-- Loop `for idx, article in enumerate(j["articles"])`: process the article list
of one story, threading the directory's files and accumulating events. -/
def fetchArticles (net : String → FetchResult) (redownload retry_errors : Bool)
    (files : Files) : List ArticleRef → Nat → Files × List Ev
  | [], _ => (files, [])
  | a :: rest, idx =>
    let (files1, evs1) := fetchOne net redownload retry_errors files idx a
    let (files2, evs2) := fetchArticles net redownload retry_errors files1 rest (idx + 1)
    (files2, evs1 ++ evs2)

/-- Function `download_articles`: for each story directory holding a `story.json`, load
it and fetch every referenced article according to the guard.  A `story.json`
that does not hold a serialized `Story` record makes `json.load`/the key
lookups raise, aborting the stage. -/
def download_articles (net : String → FetchResult) (redownload retry_errors : Bool) :
    Stories → RunResult Stories
  | [] => .ok [] []
  | d :: rest =>
    match d.files.getF "story.json" with
    | none => consDir d (download_articles net redownload retry_errors rest)
    | some (.storyJson m) =>
      let (files', evs) := fetchArticles net redownload retry_errors d.files m.articles 0
      prependEvs evs (consDir ⟨d.name, files'⟩ (download_articles net redownload retry_errors rest))
    | some _ => .err "json.load: story.json is not a Story record" (d :: rest) []

/-! ## Stage 3b: article extraction (`parse_all_articles`) -/

/-- The process working directory: the error path built in the `except` branch
of `parse_all_articles` is the literal string `"f{story_dir}/{story}/{idx}.err"`
(the `f` prefix of the f-string is missing, so nothing is interpolated), a
path relative to the current working directory.  `open(path, "a")` succeeds
only if the parent directory `"f{story_dir}/{story}"` exists there. -/
structure Cwd where
  dirs : List String
  files : Files
deriving DecidableEq, Repr

/-- The literal (uninterpolated) error path of `parse_all_articles`. -/
def brokenErrPath : String := "f\x7bstory_dir\x7d/\x7bstory\x7d/\x7bidx\x7d.err"

/-- Parent directory of `brokenErrPath`. -/
def brokenErrParent : String := "f\x7bstory_dir\x7d/\x7bstory\x7d"

/-- Python `open(err_file, "a")` followed by `print(e, file=fout)`: append to the
file, creating it when absent. -/
def appendErr (fs : Files) (n : String) (txt : String) : Files :=
  match fs.getF n with
  | some (.errText old) => fs.writeF n (.errText (old ++ txt))
  | _ => fs.writeF n (.errText txt)

/-- The inner `for f in os.listdir(...)` loop of `parse_all_articles` over the
snapshot `snap` of one story directory's listing, threading the current files
`cur` and the working directory.  For a file whose name starts with a digit
and ends in `.html`, the output name is keyed by the FIRST character only
(`f[0]`); extraction (`np`, the `newspaper` oracle) failures are appended to
the broken literal error path, and when its parent directory does not exist in
the cwd the `open` raises `FileNotFoundError` from inside the `except` block,
aborting the stage. -/
def parseFilesLoop (np : String → Except String ArtJson) :
    List (String × FileContent) → Files → Cwd → RunResult (Files × Cwd)
  | [], cur, cwd => .ok (cur, cwd) []
  | (fname, _) :: snap, cur, cwd =>
    if fname.front.isDigit && strEndsWith fname ".html" then
      let output := String.singleton fname.front ++ ".json"
      if cur.existsF output then parseFilesLoop np snap cur cwd
      else
        match cur.getF fname with
        | some (.html s) =>
          match np s with
          | .ok a => parseFilesLoop np snap (cur.writeF output (.artJson a)) cwd
          | .error e =>
            if cwd.dirs.contains brokenErrParent then
              parseFilesLoop np snap cur ⟨cwd.dirs, appendErr cwd.files brokenErrPath (e ++ "\n")⟩
            else
              .err "FileNotFoundError" (cur, cwd) []
        | _ => .err "read failure" (cur, cwd) []
    else
      parseFilesLoop np snap cur cwd

/-- Cons one processed directory onto the outcome of extracting the remaining
directories. -/
def consDirA (d : StoryDir) : RunResult (Stories × Cwd) → RunResult (Stories × Cwd)
  | .ok (ds, cwd) evs => .ok (d :: ds, cwd) evs
  | .err m (ds, cwd) evs => .err m (d :: ds, cwd) evs

/-- Function `parse_all_articles`: run the inner loop on every story directory (the
listing snapshot is taken before the loop body writes any file, as
`os.listdir` is evaluated once). -/
def parse_all_articles (np : String → Except String ArtJson) :
    Stories → Cwd → RunResult (Stories × Cwd)
  | [], cwd => .ok ([], cwd) []
  | d :: rest, cwd =>
    match parseFilesLoop np d.files d.files cwd with
    | .err m (cur, cwd') evs => .err m (⟨d.name, cur⟩ :: rest, cwd') evs
    | .ok (cur, cwd') _ =>
      consDirA ⟨d.name, cur⟩ (parse_all_articles np rest cwd')

/-! ## Stage 4: dataset compilation (`compile_dataset`) -/

/-- One merged article of a `CompiledRecord`: the extraction result with the
`ArticleRef`'s `side`, `source`, `url` copied onto it; the image fields are
`none` when `include_images=False` deleted them. -/
structure MergedArticle where
  title : String
  text : String
  top_image : Option String
  images : Option (List String)
  side : String
  source : String
  url : String
deriving DecidableEq, Repr

/-- One line of `allsides.jsonl`: the story metadata, the merged articles
keyed by position index (a Python dict, modelled as an association list in
insertion order), and the date taken from the directory-name prefix. -/
structure CompiledRecord where
  title : String
  tags : List String
  summary : String
  articles : List (Nat × MergedArticle)
  date : String
deriving DecidableEq, Repr

/-- Dict insertion `articles[idx] = a`, overwriting an existing key. -/
def insertArt : List (Nat × ArtJson) → Nat → ArtJson → List (Nat × ArtJson)
  | [], k, a => [(k, a)]
  | p :: l, k, a => if p.1 == k then (k, a) :: l else p :: insertArt l k a

/-- The artifact scan of `compile_dataset`: every file whose name starts with
a digit and ends in `.json` is loaded and keyed by `int(f[0])` — the first
character only.  A matching file that does not hold an extraction record makes
`json.loads` (or the later field accesses) raise. -/
def collectArtifacts : List (String × FileContent) → List (Nat × ArtJson) →
    Except String (List (Nat × ArtJson))
  | [], acc => .ok acc
  | (n, c) :: rest, acc =>
    if n.front.isDigit && strEndsWith n ".json" then
      match c with
      | .artJson a => collectArtifacts rest (insertArt acc (digitVal n.front) a)
      | _ => .error "json.loads: artifact is not an extraction record"
    else
      collectArtifacts rest acc

/-- The merge loop `for art_no in articles`: copy `side`, `source`, `url` from
`story_metadata[art_no]`; a key at or beyond the length of the story's article
list raises an uncaught `IndexError`. -/
def mergeArts (meta : List ArticleRef) (include_images : Bool) :
    List (Nat × ArtJson) → Except String (List (Nat × MergedArticle))
  | [] => .ok []
  | (k, a) :: rest =>
    match meta.get? k with
    | none => .error "IndexError: list index out of range"
    | some ref => do
      let tail ← mergeArts meta include_images rest
      .ok ((k, ⟨a.title, a.text,
        if include_images then some a.top_image else none,
        if include_images then some a.images else none,
        ref.side, ref.source, ref.url⟩) :: tail)

/-- The date prefix `story.split('.')[0]` of a story directory name. -/
def datePrefix (name : String) : String :=
  match splitChar '.' name.toList with
  | [] => ""
  | x :: _ => String.mk x

/-- The per-directory body of `compile_dataset`: skip directories without a
`story.json`; otherwise scan artifacts, merge, and produce a record exactly
when at least one artifact exists. -/
def compileStory (include_images : Bool) (d : StoryDir) :
    Except String (Option CompiledRecord) :=
  match d.files.getF "story.json" with
  | none => .ok none
  | some (.storyJson m) => do
    let arts ← collectArtifacts d.files []
    let merged ← mergeArts m.articles include_images arts
    .ok (if arts.isEmpty then none
         else some ⟨m.title, m.tags, m.summary, merged, datePrefix d.name⟩)
  | some _ => .error "json.loads: story.json is not a Story record"

/-- The accumulation loop of `compile_dataset` over all story directories, in
listing order, before the final sort. -/
def collectRecs (include_images : Bool) : List StoryDir → Except String (List CompiledRecord)
  | [] => .ok []
  | d :: rest => do
    let o ← compileStory include_images d
    let tail ← collectRecs include_images rest
    .ok (match o with | none => tail | some r => r :: tail)

/-- Non-decreasing date order on compiled records (`key=lambda x: x['date']`). -/
def dateLe (a b : CompiledRecord) : Prop := charListLe a.date.data b.date.data = true

instance : DecidableRel dateLe := fun _ _ => inferInstanceAs (Decidable (_ = true))

instance : IsTotal CompiledRecord dateLe := by
  constructor
  have h : ∀ as bs : List Char, charListLe as bs = true ∨ charListLe bs as = true := by
    intro as
    induction as with
    | nil => intro bs; left; rfl
    | cons a as ih =>
      intro bs
      cases bs with
      | nil => right; rfl
      | cons b bs =>
        by_cases hab : a = b
        · subst hab
          rcases ih bs with h | h
          · left; simpa [charListLe] using h
          · right; simpa [charListLe] using h
        · rcases lt_or_gt_of_ne hab with hlt | hgt
          · left; simp [charListLe, hab, hlt]
          · right; simp [charListLe, Ne.symm hab, hgt]
  exact fun a b => h _ _

instance : IsTrans CompiledRecord dateLe := by
  constructor
  have h : ∀ as bs cs : List Char, charListLe as bs = true →
      charListLe bs cs = true → charListLe as cs = true := by
    intro as
    induction as with
    | nil => intro bs cs _ _; rfl
    | cons a as ih =>
      intro bs cs h1 h2
      cases bs with
      | nil => simp [charListLe] at h1
      | cons b bs =>
        cases cs with
        | nil => simp [charListLe] at h2
        | cons c cs =>
          simp only [charListLe] at h1 h2 ⊢
          by_cases hab : a = b <;> by_cases hbc : b = c
          · subst hab; subst hbc
            simp only [if_pos rfl] at h1 h2 ⊢
            exact ih bs cs h1 h2
          · subst hab
            simp only [if_pos rfl] at h1
            simp only [if_neg hbc] at h2 ⊢
            exact h2
          · subst hbc
            simp only [if_pos rfl] at h2
            simp only [if_neg hab] at h1 ⊢
            exact h1
          · simp only [if_neg hab] at h1
            simp only [if_neg hbc] at h2
            rw [decide_eq_true_eq] at h1 h2
            have hac : a < c := lt_trans h1 h2
            simp [ne_of_lt hac, hac]
  exact fun a b c => h _ _ _

/-- Function `compile_dataset`: accumulate the per-story records, then
`sorted(data, key=lambda x: x['date'])`. -/
def compile_dataset (include_images : Bool) (ds : List StoryDir) :
    Except String (List CompiledRecord) :=
  (collectRecs include_images ds).map (fun recs => recs.insertionSort dateLe)

/-! ## The spec's skip rule for the article fetch (claim C3),
modelled from the spec's words for comparison with `shouldFetch`. -/

/-- Modelled from the spec: "skip the network call if a successful fetch
artifact already exists AND mode is not `forceRefetch`; also skip if an error
artifact exists AND mode is not `forceRefetch` and not `retryErrors`". -/
def claimSkip (forceRefetch retryErrors htmlExists errExists : Bool) : Bool :=
  (htmlExists && !forceRefetch) || (errExists && !forceRefetch && !retryErrors)


/-! ## Predicates used by the claim statements -/

/-- Every raw article page of every story directory already has its extraction
artifact (keyed, like the code does, by the first character of the filename). -/
def extractionComplete (ds : Stories) : Prop :=
  ∀ d ∈ ds, ∀ p ∈ d.files, (p.1.front.isDigit && strEndsWith p.1 ".html") = true →
    d.files.existsF (String.singleton p.1.front ++ ".json") = true

/-- A key is present in the artifact dict. -/
def keyMem (l : List (Nat × ArtJson)) (k : Nat) : Prop := ∃ a, (k, a) ∈ l

/-- For every article index, at most one of `<idx>.html` and `<idx>.err`
exists in the story directory. -/
def mutexAll (d : StoryDir) : Prop :=
  ∀ i : Nat, ¬(d.files.existsF (artHtmlName i) = true ∧
    d.files.existsF (artErrName i) = true)

/-- The story directory holds at least one file the artifact scan accepts. -/
def hasArtifacts (d : StoryDir) : Bool :=
  d.files.any (fun p => p.1.front.isDigit && strEndsWith p.1 ".json")

/-- The record `compile_dataset` derives from one directory (`none` when the
directory is skipped or contributes nothing); only meaningful when
`compileStory` does not raise. -/
def recOf (incl : Bool) (d : StoryDir) : Option CompiledRecord :=
  match compileStory incl d with
  | .ok o => o
  | .error _ => none

/-! ## Helper lemmas: filenames -/

theorem concat_ne_of_last_ne {xs ys : List Char} {a b : Char} (h : a ≠ b) :
    xs ++ [a] ≠ ys ++ [b] := by
  intro he
  have h2 := congrArg List.getLast? he
  rw [List.getLast?_concat, List.getLast?_concat] at h2
  exact h (Option.some.inj h2)

theorem artHtmlName_ne_storyJson (n : Nat) : artHtmlName n ≠ "story.json" := by
  intro h
  have hd := congrArg String.data h
  rw [artHtmlName, String.data_append] at hd
  have h1 : (".html" : String).data = ['.', 'h', 't', 'm'] ++ ['l'] := by decide
  have h2 : ("story.json" : String).data = ['s', 't', 'o', 'r', 'y', '.', 'j', 's', 'o'] ++ ['n'] := by
    decide
  rw [h1, h2, ← List.append_assoc] at hd
  exact concat_ne_of_last_ne (by decide) hd

theorem artErrName_ne_storyJson (n : Nat) : artErrName n ≠ "story.json" := by
  intro h
  have hd := congrArg String.data h
  rw [artErrName, String.data_append] at hd
  have h1 : (".err" : String).data = ['.', 'e', 'r'] ++ ['r'] := by decide
  have h2 : ("story.json" : String).data = ['s', 't', 'o', 'r', 'y', '.', 'j', 's', 'o'] ++ ['n'] := by
    decide
  rw [h1, h2, ← List.append_assoc] at hd
  exact concat_ne_of_last_ne (by decide) hd

theorem artHtmlName_ne_artErrName (i j : Nat) : artHtmlName i ≠ artErrName j := by
  intro h
  have hd := congrArg String.data h
  rw [artHtmlName, artErrName, String.data_append, String.data_append] at hd
  have h1 : (".html" : String).data = ['.', 'h', 't', 'm'] ++ ['l'] := by decide
  have h2 : (".err" : String).data = ['.', 'e', 'r'] ++ ['r'] := by decide
  rw [h1, h2, ← List.append_assoc, ← List.append_assoc] at hd
  exact concat_ne_of_last_ne (by decide) hd

theorem artHtmlName_inj {i j : Nat} (h : artHtmlName i = artHtmlName j) :
    toString i = toString j := by
  have hd := congrArg String.data h
  rw [artHtmlName, artHtmlName, String.data_append, String.data_append] at hd
  exact String.ext (List.append_cancel_right hd)

theorem artErrName_inj {i j : Nat} (h : artErrName i = artErrName j) :
    toString i = toString j := by
  have hd := congrArg String.data h
  rw [artErrName, artErrName, String.data_append, String.data_append] at hd
  exact String.ext (List.append_cancel_right hd)

/-! ## Helper lemmas: directory file operations -/

theorem existsF_writeF_iff (fs : Files) (n m : String) (c : FileContent) :
    (fs.writeF n c).existsF m = true ↔ (n = m ∨ fs.existsF m = true) := by
  induction fs with
  | nil => simp [Files.writeF, Files.existsF]
  | cons p fs ih =>
    by_cases h : p.1 = n
    · have hb : (p.1 == n) = true := by simp [h]
      simp only [Files.writeF, hb, if_true, Files.existsF, List.any_cons, h, beq_iff_eq,
        Bool.or_eq_true] at ih ⊢
      tauto
    · have hb : (p.1 == n) = false := by simp [h]
      simp only [Files.writeF, hb, if_false, Files.existsF, List.any_cons, beq_iff_eq,
        Bool.or_eq_true, Bool.false_eq_true] at ih ⊢
      tauto

theorem existsF_writeF_self (fs : Files) (n : String) (c : FileContent) :
    (fs.writeF n c).existsF n = true :=
  (existsF_writeF_iff fs n n c).mpr (Or.inl rfl)

theorem existsF_writeF_mono {fs : Files} {m : String} (n : String) (c : FileContent)
    (h : fs.existsF m = true) : (fs.writeF n c).existsF m = true :=
  (existsF_writeF_iff fs n m c).mpr (Or.inr h)

theorem getF_writeF_self (fs : Files) (n : String) (c : FileContent) :
    (fs.writeF n c).getF n = some c := by
  induction fs with
  | nil => simp [Files.writeF, Files.getF]
  | cons p fs ih =>
    by_cases h : p.1 = n
    · simp [Files.writeF, h, Files.getF]
    · have hb : (p.1 == n) = false := by simp [h]
      simp [Files.writeF, hb, Files.getF, List.find?] at ih ⊢
      exact ih

theorem getF_writeF_ne {n m : String} (fs : Files) (c : FileContent) (h : n ≠ m) :
    (fs.writeF n c).getF m = fs.getF m := by
  have hnm : (n == m) = false := by simp [h]
  induction fs with
  | nil => simp [Files.writeF, Files.getF, List.find?, hnm]
  | cons p fs ih =>
    by_cases hp : p.1 = n
    · have hb : (p.1 == n) = true := by simp [hp]
      have hpm : (p.1 == m) = false := by simp [hp, h]
      simp only [Files.writeF, hb, if_true, Files.getF, List.find?, hnm, hpm]
    · have hb : (p.1 == n) = false := by simp [hp]
      by_cases hm : p.1 = m
      · have hpm : (p.1 == m) = true := by simp [hm]
        simp only [Files.writeF, hb, if_false, Files.getF, List.find?, hpm,
          Option.map_some]
      · have hpm : (p.1 == m) = false := by simp [hm]
        simp only [Files.writeF, hb, if_false, Files.getF, List.find?, hpm] at ih ⊢
        exact ih

theorem existsF_iff_getF (fs : Files) (n : String) :
    fs.existsF n = true ↔ (fs.getF n).isSome = true := by
  induction fs with
  | nil => simp [Files.existsF, Files.getF]
  | cons p fs ih =>
    by_cases h : p.1 = n
    · have hb : (p.1 == n) = true := by simp [h]
      simp [Files.existsF, Files.getF, List.find?, hb]
    · have hb : (p.1 == n) = false := by simp [h]
      simp only [Files.existsF, Files.getF, List.find?, hb, List.any_cons,
        Bool.or_eq_true, Bool.false_eq_true, false_or] at ih ⊢
      exact ih

/-! ## Helper lemmas: the article fetch loop -/

theorem fetchOne_mono {net : String → FetchResult} {r t : Bool} {files : Files}
    {idx : Nat} {a : ArticleRef} {m : String} (h : files.existsF m = true) :
    ((fetchOne net r t files idx a).1).existsF m = true := by
  unfold fetchOne
  split
  · rcases net a.url with ⟨c, txt⟩ | e
    · by_cases hc : (c == 200) = true
      · simp [hc, existsF_writeF_mono _ _ h]
      · simp only [Bool.not_eq_true] at hc
        simp [hc, existsF_writeF_mono _ _ h]
    · simp [existsF_writeF_mono _ _ h]
  · exact h

theorem fetchOne_getF_storyJson (net : String → FetchResult) (r t : Bool) (files : Files)
    (idx : Nat) (a : ArticleRef) :
    ((fetchOne net r t files idx a).1).getF "story.json" = files.getF "story.json" := by
  unfold fetchOne
  split
  · rcases net a.url with ⟨c, txt⟩ | e
    · by_cases hc : (c == 200) = true
      · simp [hc, getF_writeF_ne _ _ (artHtmlName_ne_storyJson idx)]
      · simp only [Bool.not_eq_true] at hc
        simp [hc, getF_writeF_ne _ _ (artErrName_ne_storyJson idx)]
    · simp [getF_writeF_ne _ _ (artErrName_ne_storyJson idx)]
  · rfl

theorem fetchOne_normal_establishes (net : String → FetchResult) (files : Files)
    (idx : Nat) (a : ArticleRef) :
    (((fetchOne net false false files idx a).1).existsF (artHtmlName idx) = true) ∨
    (((fetchOne net false false files idx a).1).existsF (artErrName idx) = true) := by
  unfold fetchOne
  by_cases hs : shouldFetch false false (files.existsF (artHtmlName idx))
      (files.existsF (artErrName idx)) = true
  · rw [if_pos hs]
    rcases net a.url with ⟨c, txt⟩ | e
    · by_cases hc : (c == 200) = true
      · simp [hc, existsF_writeF_self]
      · simp only [Bool.not_eq_true] at hc
        simp [hc, existsF_writeF_self]
    · simp [existsF_writeF_self]
  · rw [if_neg hs]
    cases hH : files.existsF (artHtmlName idx) with
    | true => exact Or.inl rfl
    | false =>
      cases hE : files.existsF (artErrName idx) with
      | true => exact Or.inr rfl
      | false => exact absurd (by simp [shouldFetch, hH, hE]) hs

theorem fetchOne_skip (net : String → FetchResult) (files : Files) (idx : Nat)
    (a : ArticleRef)
    (h : files.existsF (artHtmlName idx) = true ∨ files.existsF (artErrName idx) = true) :
    fetchOne net false false files idx a = (files, []) := by
  unfold fetchOne
  have hs : shouldFetch false false (files.existsF (artHtmlName idx))
      (files.existsF (artErrName idx)) = false := by
    rcases h with h | h <;> simp [shouldFetch, h]
  rw [hs]
  simp

theorem fetchArticles_mono {net : String → FetchResult} {r t : Bool} {m : String}
    (arts : List ArticleRef) (files : Files) (idx : Nat)
    (h : files.existsF m = true) :
    ((fetchArticles net r t files arts idx).1).existsF m = true := by
  induction arts generalizing files idx with
  | nil => exact h
  | cons a rest ih =>
    simp only [fetchArticles]
    exact ih _ _ (fetchOne_mono h)

theorem fetchArticles_getF_storyJson (net : String → FetchResult) (r t : Bool)
    (arts : List ArticleRef) (files : Files) (idx : Nat) :
    ((fetchArticles net r t files arts idx).1).getF "story.json" =
      files.getF "story.json" := by
  induction arts generalizing files idx with
  | nil => rfl
  | cons a rest ih =>
    simp only [fetchArticles]
    rw [ih, fetchOne_getF_storyJson]

theorem fetchArticles_idem {net : String → FetchResult} (arts : List ArticleRef)
    (files files' : Files) (idx : Nat) (evs : List Ev)
    (h : fetchArticles net false false files arts idx = (files', evs)) :
    fetchArticles net false false files' arts idx = (files', []) := by
  induction arts generalizing files idx evs with
  | nil =>
    simp only [fetchArticles] at h ⊢
  | cons a rest ih =>
    simp only [fetchArticles] at h ⊢
    have hfst : (fetchArticles net false false (fetchOne net false false files idx a).1
        rest (idx + 1)).1 = files' := congrArg Prod.fst h
    have h1 := fetchOne_normal_establishes net files idx a
    have hfinal : files'.existsF (artHtmlName idx) = true ∨
        files'.existsF (artErrName idx) = true := by
      rcases h1 with h1 | h1
      · exact Or.inl (hfst ▸ fetchArticles_mono _ _ _ h1)
      · exact Or.inr (hfst ▸ fetchArticles_mono _ _ _ h1)
    rw [fetchOne_skip net files' idx a hfinal]
    have h2 := ih (fetchOne net false false files idx a).1 (idx + 1)
      (fetchArticles net false false (fetchOne net false false files idx a).1 rest (idx + 1)).2
      (Prod.ext hfst rfl)
    simp only [h2]
    rfl

theorem download_articles_idem {net : String → FetchResult} (ds ds' : Stories)
    (evs : List Ev) (h : download_articles net false false ds = .ok ds' evs) :
    download_articles net false false ds' = .ok ds' [] := by
  induction ds generalizing ds' evs with
  | nil =>
    simp only [download_articles] at h
    cases h
    simp [download_articles]
  | cons d rest ih =>
    rcases hg : d.files.getF "story.json" with - | c
    · simp only [download_articles, hg] at h
      rcases hrec : download_articles net false false rest with ⟨s, e⟩ | ⟨msg, s, e⟩
      · rw [hrec] at h
        simp only [consDir, RunResult.ok.injEq] at h
        obtain ⟨rfl, rfl⟩ := h
        simp only [download_articles, hg]
        rw [ih s e hrec]
        simp only [consDir]
      · rw [hrec] at h
        simp [consDir] at h
    · cases c with
      | storyJson m =>
        simp only [download_articles, hg] at h
        rcases hrec : download_articles net false false rest with ⟨s, e⟩ | ⟨msg, s, e⟩
        · rw [hrec] at h
          simp only [consDir, prependEvs, RunResult.ok.injEq] at h
          obtain ⟨rfl, rfl⟩ := h
          have hg2 : ((fetchArticles net false false d.files m.articles 0).1).getF
              "story.json" = some (.storyJson m) := by
            rw [fetchArticles_getF_storyJson]
            exact hg
          have hfa : fetchArticles net false false
              (fetchArticles net false false d.files m.articles 0).1 m.articles 0 =
              ((fetchArticles net false false d.files m.articles 0).1, []) :=
            fetchArticles_idem _ _ _ _ _ rfl
          simp only [download_articles, hg2, hfa]
          rw [ih s e hrec]
          simp only [consDir, prependEvs]
          rfl
        · rw [hrec] at h
          simp [consDir, prependEvs] at h
      | html s' => exact RunResult.noConfusion (by simpa only [download_articles, hg] using h)
      | artJson a => exact RunResult.noConfusion (by simpa only [download_articles, hg] using h)
      | errText s' => exact RunResult.noConfusion (by simpa only [download_articles, hg] using h)

theorem parse_all_stories_idem (parse : String → Except String (Option StoryMeta))
    (ds ds' : Stories) (evs : List Ev)
    (h : parse_all_stories parse ds = .ok ds' evs) :
    parse_all_stories parse ds' = .ok ds' [] := by
  induction ds generalizing ds' evs with
  | nil =>
    simp only [parse_all_stories] at h
    cases h
    simp [parse_all_stories]
  | cons d rest ih =>
    by_cases hx : d.files.existsF "story.json" = true
    · simp only [parse_all_stories, hx, if_true] at h
      rcases hrec : parse_all_stories parse rest with ⟨s, e⟩ | ⟨msg, s, e⟩
      · rw [hrec] at h
        simp only [consDir, RunResult.ok.injEq] at h
        obtain ⟨rfl, rfl⟩ := h
        simp only [parse_all_stories, hx, if_true]
        rw [ih s e hrec]
        simp only [consDir]
      · rw [hrec] at h
        simp [consDir] at h
    · have hx' : d.files.existsF "story.json" = false := by
        simpa using hx
      simp only [parse_all_stories, hx', Bool.false_eq_true, if_false] at h
      rcases hh : d.files.getF "story.html" with - | c
      · simp only [hh] at h
        exact RunResult.noConfusion h
      · cases c with
        | html str =>
          simp only [hh] at h
          rcases hp : parse str with pe | po
          · simp only [hp] at h
            exact RunResult.noConfusion h
          · rcases po with - | m
            · simp only [hp] at h
              rcases hrec : parse_all_stories parse rest with ⟨s, e⟩ | ⟨msg, s, e⟩
              · rw [hrec] at h
                simp only [consDir, RunResult.ok.injEq] at h
                obtain ⟨rfl, rfl⟩ := h
                simp only [parse_all_stories, hx', Bool.false_eq_true, if_false, hh, hp]
                rw [ih s e hrec]
                simp only [consDir]
              · rw [hrec] at h
                simp [consDir] at h
            · simp only [hp] at h
              rcases hrec : parse_all_stories parse rest with ⟨s, e⟩ | ⟨msg, s, e⟩
              · rw [hrec] at h
                simp only [consDir, RunResult.ok.injEq] at h
                obtain ⟨rfl, rfl⟩ := h
                have hx2 : (Files.writeF d.files "story.json" (.storyJson m)).existsF
                    "story.json" = true := existsF_writeF_self _ _ _
                simp only [parse_all_stories, hx2, if_true]
                rw [ih s e hrec]
                simp only [consDir]
              · rw [hrec] at h
                simp [consDir] at h
        | storyJson m =>
          simp only [hh] at h
          exact RunResult.noConfusion h
        | artJson a =>
          simp only [hh] at h
          exact RunResult.noConfusion h
        | errText s' =>
          simp only [hh] at h
          exact RunResult.noConfusion h


theorem parseFilesLoop_noop (np : String → Except String ArtJson)
    (snap : List (String × FileContent)) (cur : Files) (cwd : Cwd)
    (h : ∀ p ∈ snap, (p.1.front.isDigit && strEndsWith p.1 ".html") = true →
      cur.existsF (String.singleton p.1.front ++ ".json") = true) :
    parseFilesLoop np snap cur cwd = .ok (cur, cwd) [] := by
  induction snap with
  | nil => rfl
  | cons p snap ih =>
    by_cases hc : (p.1.front.isDigit && strEndsWith p.1 ".html") = true
    · have hout : cur.existsF (String.singleton p.1.front ++ ".json") = true :=
        h p (List.mem_cons_self _ _) hc
      simp only [parseFilesLoop, hc, if_true, hout]
      exact ih (fun q hq => h q (List.mem_cons_of_mem _ hq))
    · have hc' : (p.1.front.isDigit && strEndsWith p.1 ".html") = false := by
        simpa using hc
      simp only [parseFilesLoop, hc', Bool.false_eq_true, if_false]
      exact ih (fun q hq => h q (List.mem_cons_of_mem _ hq))

theorem parse_all_articles_noop (np : String → Except String ArtJson)
    (ds : Stories) (cwd : Cwd) (h : extractionComplete ds) :
    parse_all_articles np ds cwd = .ok (ds, cwd) [] := by
  induction ds with
  | nil => rfl
  | cons d rest ih =>
    have hd := parseFilesLoop_noop np d.files d.files cwd
      (fun p hp hc => h d (List.mem_cons_self _ _) p hp hc)
    simp only [parse_all_articles, hd]
    rw [ih (fun e he => h e (List.mem_cons_of_mem _ he))]
    simp only [consDirA]

/-! ## Helper lemmas: the story fetch loop -/

theorem fileExistsS_mkdirS (ds : Stories) (n m f : String) :
    fileExistsS (mkdirS ds n) m f = fileExistsS ds m f := by
  unfold mkdirS
  split
  · rfl
  · simp [fileExistsS, Files.existsF]

theorem dirExistsS_mkdirS_self (ds : Stories) (n : String) :
    dirExistsS (mkdirS ds n) n = true := by
  unfold mkdirS
  split
  · assumption
  · simp [dirExistsS]

theorem mkdirS_of_dirExists {ds : Stories} {n : String} (h : dirExistsS ds n = true) :
    mkdirS ds n = ds := by
  unfold mkdirS
  rw [h]
  rfl

theorem dirExistsS_of_fileExistsS {ds : Stories} {n f : String}
    (h : fileExistsS ds n f = true) : dirExistsS ds n = true := by
  simp only [fileExistsS, List.any_eq_true, Bool.and_eq_true] at h
  obtain ⟨d, hd, h1, -⟩ := h
  simp only [dirExistsS, List.any_eq_true]
  exact ⟨d, hd, h1⟩

theorem fileExistsS_writeS_self {ds : Stories} {n : String} (f : String) (c : FileContent)
    (h : dirExistsS ds n = true) : fileExistsS (writeS ds n f c) n f = true := by
  induction ds with
  | nil => simp [dirExistsS] at h
  | cons d rest ih =>
    by_cases hd : d.name = n
    · have hb : (d.name == n) = true := by simp [hd]
      simp [writeS, hb, fileExistsS, existsF_writeF_self]
    · have hb : (d.name == n) = false := by simp [hd]
      simp only [dirExistsS, List.any_cons, hb, Bool.false_or] at h
      simp only [writeS, hb, Bool.false_eq_true, if_false, fileExistsS, List.any_cons, hb,
        Bool.false_and, Bool.false_or]
      exact ih h

theorem fileExistsS_writeS_mono {ds : Stories} {m f : String} (n g : String)
    (c : FileContent) (h : fileExistsS ds m f = true) :
    fileExistsS (writeS ds n g c) m f = true := by
  induction ds with
  | nil => simp [fileExistsS] at h
  | cons d rest ih =>
    simp only [fileExistsS, List.any_cons, Bool.or_eq_true, Bool.and_eq_true] at h
    by_cases hd : d.name = n
    · have hb : (d.name == n) = true := by simp [hd]
      simp only [writeS, hb, if_true, fileExistsS, List.any_cons, Bool.or_eq_true,
        Bool.and_eq_true]
      rcases h with ⟨h1, h2⟩ | h
      · exact Or.inl ⟨h1, existsF_writeF_mono _ _ h2⟩
      · exact Or.inr (by simpa [fileExistsS] using h)
    · have hb : (d.name == n) = false := by simp [hd]
      simp only [writeS, hb, Bool.false_eq_true, if_false, fileExistsS, List.any_cons,
        Bool.or_eq_true, Bool.and_eq_true]
      rcases h with h | h
      · exact Or.inl h
      · exact Or.inr (by simpa [fileExistsS] using ih (by simpa [fileExistsS] using h))

theorem download_stories_mono {net : String → FetchResult} {m f : String}
    (rs : List Roundup) (ds ds' : Stories) (evs : List Ev)
    (hok : download_stories net false rs ds = .ok ds' evs)
    (h : fileExistsS ds m f = true) : fileExistsS ds' m f = true := by
  induction rs generalizing ds evs with
  | nil =>
    simp only [download_stories] at hok
    cases hok
    exact h
  | cons r rest ih =>
    simp only [download_stories] at hok
    rcases hn : storyDirName r with - | dname
    · rw [hn] at hok
      exact RunResult.noConfusion hok
    · rw [hn] at hok
      simp only at hok
      split at hok
      · rcases hnet : net ("https://www.allsides.com" ++ r.url) with ⟨c, t⟩ | e
        · rw [hnet] at hok
          simp only [prependEvs] at hok
          rcases hrec : download_stories net false rest
              (writeS (mkdirS ds dname) dname "story.html" (.html t)) with ⟨s, e⟩ | ⟨msg, s, e⟩
          · rw [hrec] at hok
            simp only [RunResult.ok.injEq] at hok
            obtain ⟨rfl, rfl⟩ := hok
            exact ih _ _ hrec (fileExistsS_writeS_mono _ _ _ (by rw [fileExistsS_mkdirS]; exact h))
          · rw [hrec] at hok
            exact RunResult.noConfusion hok
        · rw [hnet] at hok
          exact RunResult.noConfusion hok
      · exact ih _ _ hok (by rw [fileExistsS_mkdirS]; exact h)

theorem download_stories_establishes {net : String → FetchResult}
    (rs : List Roundup) (ds ds' : Stories) (evs : List Ev)
    (hok : download_stories net false rs ds = .ok ds' evs) :
    ∀ r ∈ rs, ∃ dn, storyDirName r = some dn ∧ fileExistsS ds' dn "story.html" = true := by
  induction rs generalizing ds evs with
  | nil => intro r hr; exact absurd hr (List.not_mem_nil r)
  | cons r0 rest ih =>
    intro r hr
    simp only [download_stories] at hok
    rcases hn : storyDirName r0 with - | dname
    · rw [hn] at hok
      exact RunResult.noConfusion hok
    · rw [hn] at hok
      simp only at hok
      split at hok
      · rcases hnet : net ("https://www.allsides.com" ++ r0.url) with ⟨c, t⟩ | e
        · rw [hnet] at hok
          simp only [prependEvs] at hok
          rcases hrec : download_stories net false rest
              (writeS (mkdirS ds dname) dname "story.html" (.html t)) with ⟨s, e⟩ | ⟨msg, s, e⟩
          · rw [hrec] at hok
            simp only [RunResult.ok.injEq] at hok
            obtain ⟨rfl, rfl⟩ := hok
            rcases List.mem_cons.mp hr with rfl | hr'
            · refine ⟨dname, hn, ?_⟩
              exact download_stories_mono rest _ _ _ hrec
                (fileExistsS_writeS_self _ _ (dirExistsS_mkdirS_self ds dname))
            · exact ih _ _ hrec r hr'
          · rw [hrec] at hok
            exact RunResult.noConfusion hok
        · rw [hnet] at hok
          exact RunResult.noConfusion hok
      · rename_i hcond
        rcases List.mem_cons.mp hr with rfl | hr'
        · have hex : fileExistsS (mkdirS ds dname) dname "story.html" = true := by
            simpa using hcond
          exact ⟨dname, hn, download_stories_mono rest _ _ _ hok hex⟩
        · exact ih _ _ hok r hr'

theorem download_stories_noop {net : String → FetchResult}
    (rs : List Roundup) (ds : Stories)
    (h : ∀ r ∈ rs, ∃ dn, storyDirName r = some dn ∧ fileExistsS ds dn "story.html" = true) :
    download_stories net false rs ds = .ok ds [] := by
  induction rs with
  | nil => rfl
  | cons r0 rest ih =>
    obtain ⟨dn, hn, hfile⟩ := h r0 (List.mem_cons_self _ _)
    have hdir : dirExistsS ds dn = true := dirExistsS_of_fileExistsS hfile
    have hmk : mkdirS ds dn = ds := mkdirS_of_dirExists hdir
    simp only [download_stories, hn, hmk, hfile, Bool.not_true, Bool.false_or,
      Bool.false_eq_true, if_false]
    exact ih (fun r hr => h r (List.mem_cons_of_mem _ hr))

theorem download_stories_idem {net : String → FetchResult}
    (rs : List Roundup) (ds ds' : Stories) (evs : List Ev)
    (hok : download_stories net false rs ds = .ok ds' evs) :
    download_stories net false rs ds' = .ok ds' [] :=
  download_stories_noop rs ds' (download_stories_establishes rs ds ds' evs hok)

/-! ## Claim C1 -/

/-- Claim C1, counterexample.  The claim says every stage, run a second time
with no mode modifiers against the state left by a completed first run,
performs zero additional network requests.  The roundup collection stage
(`download_roundups`) has no skip logic at all: with a listing of two pages
(the last-page control reporting index 1), the first run from an empty
directory leaves pages 0 and 1 on disk, and the second run against exactly
that state performs 2 network requests, not 0. -/
theorem C1_roundup_second_run_refetches :
    download_roundups (fun i => .resp 200 ("p" ++ toString i)) (fun _ => some 1) [] =
      .ok [(0, "p0"), (1, "p1")]
        [.req (roundup_url 0), .req (roundup_url 1), .sleep] ∧
    download_roundups (fun i => .resp 200 ("p" ++ toString i)) (fun _ => some 1)
        [(0, "p0"), (1, "p1")] =
      .ok [(0, "p0"), (1, "p1")]
        [.req (roundup_url 0), .req (roundup_url 1), .sleep] ∧
    reqCount [.req (roundup_url 0), .req (roundup_url 1), .sleep] = 2 := by
  refine ⟨by decide, by decide, by decide⟩

/-- Claim C1, amended.  With `redownload=false` and `retry_errors=false`, the
story fetch, story extraction, and article fetch stages are idempotent: a
second run against the state left by a completed first run performs zero
network requests (empty event trace) and leaves the state unchanged; article
extraction likewise re-runs as a no-op provided every raw article page already
has its extraction artifact (a failed extraction is re-attempted on every
run).  The roundup stage is excluded: it refetches every page on every run
(see the counterexample). -/
theorem C1_stage_idempotence_amended :
    (∀ (net : String → FetchResult) (rs : List Roundup) (ds ds' : Stories) (evs : List Ev),
        download_stories net false rs ds = .ok ds' evs →
        download_stories net false rs ds' = .ok ds' []) ∧
    (∀ (parse : String → Except String (Option StoryMeta)) (ds ds' : Stories)
        (evs : List Ev),
        parse_all_stories parse ds = .ok ds' evs →
        parse_all_stories parse ds' = .ok ds' []) ∧
    (∀ (net : String → FetchResult) (ds ds' : Stories) (evs : List Ev),
        download_articles net false false ds = .ok ds' evs →
        download_articles net false false ds' = .ok ds' []) ∧
    (∀ (np : String → Except String ArtJson) (ds : Stories) (cwd : Cwd),
        extractionComplete ds → parse_all_articles np ds cwd = .ok (ds, cwd) []) :=
  ⟨fun _ rs ds ds' evs h => download_stories_idem rs ds ds' evs h,
   fun p ds ds' evs h => parse_all_stories_idem p ds ds' evs h,
   fun _ ds ds' evs h => download_articles_idem ds ds' evs h,
   fun np ds cwd h => parse_all_articles_noop np ds cwd h⟩

/-- Witness for the amended C1 theorem at concrete inputs. -/
theorem C1_stage_idempotence_amended_witness :
    download_stories (fun _ => FetchResult.resp 200 "T") false
        [⟨"t", "/story/a", "", "2020-01-01"⟩]
        [⟨"2020-01-01.a", [("story.html", .html "T")]⟩] =
      .ok [⟨"2020-01-01.a", [("story.html", .html "T")]⟩] [] ∧
    parse_all_stories (fun _ => .ok (some ⟨"T", [], "S", []⟩))
        [⟨"d", [("story.html", .html "x"),
                ("story.json", .storyJson ⟨"T", [], "S", []⟩)]⟩] =
      .ok [⟨"d", [("story.html", .html "x"),
                  ("story.json", .storyJson ⟨"T", [], "S", []⟩)]⟩] [] ∧
    download_articles (fun _ => FetchResult.resp 200 "T") false false
        [⟨"d", [("story.json", .storyJson ⟨"T", [], "S",
                  [⟨"A", "Left", "S0", "u"⟩]⟩), ("0.html", .html "T")]⟩] =
      .ok [⟨"d", [("story.json", .storyJson ⟨"T", [], "S",
                  [⟨"A", "Left", "S0", "u"⟩]⟩), ("0.html", .html "T")]⟩] [] ∧
    parse_all_articles (fun _ => .ok ⟨"t", "x", "ti", []⟩)
        [⟨"d", [("0.html", .html "x"), ("0.json", .artJson ⟨"t", "x", "ti", []⟩)]⟩]
        ⟨[], []⟩ =
      .ok ([⟨"d", [("0.html", .html "x"), ("0.json", .artJson ⟨"t", "x", "ti", []⟩)]⟩],
        ⟨[], []⟩) [] :=
  ⟨C1_stage_idempotence_amended.1 (fun _ => FetchResult.resp 200 "T")
      [⟨"t", "/story/a", "", "2020-01-01"⟩] []
      [⟨"2020-01-01.a", [("story.html", .html "T")]⟩]
      [.req "https://www.allsides.com/story/a", .sleep] (by decide),
   C1_stage_idempotence_amended.2.1 (fun _ => .ok (some ⟨"T", [], "S", []⟩))
      [⟨"d", [("story.html", .html "x")]⟩]
      [⟨"d", [("story.html", .html "x"),
              ("story.json", .storyJson ⟨"T", [], "S", []⟩)]⟩] [] (by decide),
   C1_stage_idempotence_amended.2.2.1 (fun _ => FetchResult.resp 200 "T")
      [⟨"d", [("story.json", .storyJson ⟨"T", [], "S", [⟨"A", "Left", "S0", "u"⟩]⟩)]⟩]
      [⟨"d", [("story.json", .storyJson ⟨"T", [], "S", [⟨"A", "Left", "S0", "u"⟩]⟩),
              ("0.html", .html "T")]⟩]
      [.req "u"] (by decide),
   C1_stage_idempotence_amended.2.2.2 (fun _ => .ok ⟨"t", "x", "ti", []⟩)
      [⟨"d", [("0.html", .html "x"), ("0.json", .artJson ⟨"t", "x", "ti", []⟩)]⟩]
      ⟨[], []⟩ (by unfold extractionComplete; decide)⟩

/-! ## Claim C6 -/

/-- Claim C6 (code bug).  The claim says every network request is followed by
a sleep of the politeness delay before the next request.  `download_articles`
accepts a `delay` parameter (documented by the CLI as "seconds to sleep after
each request") but never calls `time.sleep`: fetching a story's two pending
articles issues the two requests back to back, an event trace that is not
paced.  (`download_roundups` likewise issues the page-0 and page-1 requests
with no sleep in between.) -/
theorem C6_article_requests_not_followed_by_sleep :
    download_articles (fun u => .resp 200 ("page:" ++ u)) false false
        [⟨"d", [("story.json", .storyJson ⟨"T", [], "S",
            [⟨"A0", "Left", "S0", "u0"⟩, ⟨"A1", "Right", "S1", "u1"⟩]⟩)]⟩] =
      .ok [⟨"d", [("story.json", .storyJson ⟨"T", [], "S",
            [⟨"A0", "Left", "S0", "u0"⟩, ⟨"A1", "Right", "S1", "u1"⟩]⟩),
          ("0.html", .html "page:u0"), ("1.html", .html "page:u1")]⟩]
        [.req "u0", .req "u1"] ∧
    paced [.req "u0", .req "u1"] = false :=
  ⟨by decide, by decide⟩

/-! ## Claim C4 -/

/-- Claim C4 (code bug).  The claim says a parse failure on one item never
prevents later items of the stage from being processed, and that the error is
persisted next to the item's data.  In `parse_all_articles` the `except`
branch builds `err_file = "f{story_dir}/{story}/{idx}.err"` — the `f` prefix
of the intended f-string is missing, so this is a literal cwd-relative path
whose parent directory does not exist; `open(err_file, "a")` raises
`FileNotFoundError` from inside the `except` block and the whole stage aborts.
Concretely: with two story directories, the failing extraction of `0.html` in
the first aborts the run with the on-disk state unchanged — no error artifact
is persisted anywhere, and neither the first directory's `1.html` nor the
second directory's `0.html` is processed. -/
theorem C4_extraction_error_aborts_stage :
    parse_all_articles
        (fun s => if s == "bad" then .error "boom" else .ok ⟨"t", "x", "ti", []⟩)
        [⟨"a", [("0.html", .html "bad"), ("1.html", .html "good")]⟩,
         ⟨"b", [("0.html", .html "good")]⟩] ⟨[], []⟩ =
      .err "FileNotFoundError"
        ([⟨"a", [("0.html", .html "bad"), ("1.html", .html "good")]⟩,
          ⟨"b", [("0.html", .html "good")]⟩], ⟨[], []⟩) [] := by
  decide

/-! ## Claim C8 -/

/-- Claim C8.  If the first roundup page has no "Go to last page" navigation
control, the Python loop never binds `last_page`, the subsequent
`range(1, last_page + 1)` raises `NameError`, and the collection run aborts:
only the raw page 0 is persisted and no `roundups.tsv` index (partial or
otherwise) is produced. -/
theorem C8_missing_last_page_aborts (netPage : Nat → FetchResult)
    (findLastPage : String → Option Nat) (parsePage : String → List Roundup)
    (fs : RFiles) (c : Nat) (t : String)
    (h0 : netPage 0 = .resp c t) (hn : findLastPage t = none) :
    process_roundups netPage findLastPage parsePage fs =
      .err "NameError: last_page is not defined" (writeR fs 0 t, none)
        [.req (roundup_url 0)] := by
  unfold process_roundups download_roundups
  simp only [h0, hn]

/-- Witness for C8 at a concrete input. -/
theorem C8_missing_last_page_aborts_witness :
    process_roundups (fun _ => .resp 200 "page0") (fun _ => none) (fun _ => []) [] =
      .err "NameError: last_page is not defined" ([(0, "page0")], none)
        [.req (roundup_url 0)] :=
  C8_missing_last_page_aborts (fun _ => .resp 200 "page0") (fun _ => none)
    (fun _ => []) [] 200 "page0" rfl rfl

/-! ## Helper lemmas: sequencing and claim C10 -/

theorem prependEvs_nil {σ : Type} (r : RunResult σ) : prependEvs [] r = r := by
  cases r <;> rfl

theorem prependEvs_append {σ : Type} (a b : List Ev) (r : RunResult σ) :
    prependEvs a (prependEvs b r) = prependEvs (a ++ b) r := by
  cases r <;> simp [prependEvs]

theorem splitChar_length (sep : Char) (l : List Char) :
    (splitChar sep l).length = l.count sep + 1 := by
  induction l with
  | nil => rfl
  | cons c rest ih =>
    simp only [splitChar]
    rcases hs : splitChar sep rest with - | ⟨g, gs⟩
    · rw [hs] at ih
      simp at ih
    · rw [hs] at ih
      by_cases hc : c = sep
      · simp only [hc, if_pos rfl, List.length_cons, List.count_cons_self]
        simpa using ih
      · have : (c == sep) = false := by simp [hc]
        simp only [if_neg hc, List.length_cons, List.count_cons, this, if_false]
        simpa using ih

theorem storyDirName_none_of_few_slashes {r : Roundup}
    (h : r.url.data.count '/' < 2) : storyDirName r = none := by
  unfold storyDirName
  have hlen : (splitChar '/' r.url.toList).length ≤ 2 := by
    rw [String.toList, splitChar_length]
    omega
  rw [List.get?_eq_none.mpr hlen]
  rfl

theorem download_stories_append {net : String → FetchResult} {red : Bool}
    (xs ys : List Roundup) (ds dsx : Stories) (evsx : List Ev)
    (h : download_stories net red xs ds = .ok dsx evsx) :
    download_stories net red (xs ++ ys) ds =
      prependEvs evsx (download_stories net red ys dsx) := by
  induction xs generalizing ds evsx with
  | nil =>
    simp only [download_stories] at h
    cases h
    rw [List.nil_append, prependEvs_nil]
  | cons x xs ih =>
    simp only [List.cons_append, download_stories] at h ⊢
    rcases hn : storyDirName x with - | dname
    · rw [hn] at h
      exact RunResult.noConfusion h
    · rw [hn] at h
      simp only at h ⊢
      split at h <;> rename_i hcond
      · rw [if_pos hcond]
        rcases hnet : net ("https://www.allsides.com" ++ x.url) with ⟨c, t⟩ | e
        · simp only [hnet] at h ⊢
          rcases hrec : download_stories net red xs
              (writeS (mkdirS ds dname) dname "story.html" (.html t)) with ⟨s, e⟩ | ⟨msg, s, e⟩
          · rw [hrec] at h
            simp only [prependEvs, RunResult.ok.injEq] at h
            obtain ⟨rfl, rfl⟩ := h
            rw [List.append_eq, ih _ _ hrec, prependEvs_append]
          · rw [hrec] at h
            simp [prependEvs] at h
        · simp only [hnet] at h
          exact RunResult.noConfusion h
      · rw [if_neg hcond]
        exact ih _ _ h

/-! ## Claim C10 -/

/-- Claim C10.  `download_stories` derives each story's directory key as
`r.url.split('/')[2]`; for a roundup whose url has fewer than two `/`
characters the subscript raises an uncaught `IndexError` and the stage aborts
with the state and trace produced by the roundups before it — the bad roundup
and every roundup after it are left unprocessed. -/
theorem C10_bad_url_aborts_story_fetch (net : String → FetchResult)
    (pre : List Roundup) (bad : Roundup) (post : List Roundup)
    (ds dsPre : Stories) (evsPre : List Ev)
    (hpre : download_stories net false pre ds = .ok dsPre evsPre)
    (hbad : bad.url.data.count '/' < 2) :
    download_stories net false (pre ++ bad :: post) ds =
      .err "IndexError: list index out of range" dsPre evsPre := by
  rw [download_stories_append pre (bad :: post) ds dsPre evsPre hpre]
  simp only [download_stories, storyDirName_none_of_few_slashes hbad, prependEvs,
    List.append_nil]

/-- Witness for C10 at a concrete input: one good roundup, then a roundup
whose url `"nope"` has no slash, then another good one. -/
theorem C10_bad_url_aborts_story_fetch_witness :
    download_stories (fun _ => FetchResult.resp 200 "T") false
        ([⟨"t1", "/story/a", "", "2020-01-01"⟩] ++
          ⟨"t2", "nope", "", "2020-01-02"⟩ :: [⟨"t3", "/story/c", "", "2020-01-03"⟩]) [] =
      .err "IndexError: list index out of range"
        [⟨"2020-01-01.a", [("story.html", .html "T")]⟩]
        [.req "https://www.allsides.com/story/a", .sleep] :=
  C10_bad_url_aborts_story_fetch (fun _ => FetchResult.resp 200 "T")
    [⟨"t1", "/story/a", "", "2020-01-01"⟩] ⟨"t2", "nope", "", "2020-01-02"⟩
    [⟨"t3", "/story/c", "", "2020-01-03"⟩] []
    [⟨"2020-01-01.a", [("story.html", .html "T")]⟩]
    [.req "https://www.allsides.com/story/a", .sleep] (by decide) (by decide)

/-! ## Helper lemmas: compile-time merge errors (claim C9) -/


theorem keyMem_insertArt_self (l : List (Nat × ArtJson)) (k : Nat) (a : ArtJson) :
    keyMem (insertArt l k a) k := by
  induction l with
  | nil => exact ⟨a, List.mem_singleton.mpr rfl⟩
  | cons p l ih =>
    by_cases h : p.1 = k
    · have hb : (p.1 == k) = true := by simp [h]
      simp only [insertArt, hb, if_true]
      exact ⟨a, List.mem_cons_self _ _⟩
    · have hb : (p.1 == k) = false := by simp [h]
      simp only [insertArt, hb, Bool.false_eq_true, if_false]
      obtain ⟨w, hw⟩ := ih
      exact ⟨w, List.mem_cons_of_mem _ hw⟩

theorem keyMem_insertArt_mono {l : List (Nat × ArtJson)} {k : Nat} (k' : Nat) (a' : ArtJson)
    (h : keyMem l k) : keyMem (insertArt l k' a') k := by
  induction l with
  | nil => obtain ⟨w, hw⟩ := h; exact absurd hw (List.not_mem_nil _)
  | cons p l ih =>
    obtain ⟨w, hw⟩ := h
    by_cases hb : p.1 = k'
    · have hbb : (p.1 == k') = true := by simp [hb]
      simp only [insertArt, hbb, if_true]
      rcases List.mem_cons.mp hw with rfl | hw'
      · exact ⟨a', by rw [← hb]; exact List.mem_cons_self _ _⟩
      · exact ⟨w, List.mem_cons_of_mem _ hw'⟩
    · have hbb : (p.1 == k') = false := by simp [hb]
      simp only [insertArt, hbb, Bool.false_eq_true, if_false]
      rcases List.mem_cons.mp hw with rfl | hw'
      · exact ⟨w, List.mem_cons_self _ _⟩
      · obtain ⟨v, hv⟩ := ih ⟨w, hw'⟩
        exact ⟨v, List.mem_cons_of_mem _ hv⟩

theorem collectArtifacts_keyMem (files : List (String × FileContent))
    (acc arts : List (Nat × ArtJson)) (hok : collectArtifacts files acc = .ok arts) :
    (∀ k, keyMem acc k → keyMem arts k) ∧
    (∀ n c, (n, c) ∈ files → (n.front.isDigit && strEndsWith n ".json") = true →
      keyMem arts (digitVal n.front)) := by
  induction files generalizing acc with
  | nil =>
    simp only [collectArtifacts, Except.ok.injEq] at hok
    subst hok
    exact ⟨fun _ h => h, fun n c hmem _ => absurd hmem (List.not_mem_nil _)⟩
  | cons q rest ih =>
    obtain ⟨n0, c0⟩ := q
    by_cases hc : (n0.front.isDigit && strEndsWith n0 ".json") = true
    · simp only [collectArtifacts, hc, if_true] at hok
      cases c0 with
      | artJson a0 =>
        obtain ⟨hmono, hfiles⟩ := ih (insertArt acc (digitVal n0.front) a0) hok
        constructor
        · exact fun k hk => hmono k (keyMem_insertArt_mono _ _ hk)
        · intro n c hmem hcand
          rcases List.mem_cons.mp hmem with heq | hmem'
          · obtain ⟨rfl, -⟩ := Prod.mk.injEq .. ▸ heq
            exact hmono _ (keyMem_insertArt_self _ _ _)
          · exact hfiles n c hmem' hcand
      | html s => exact Except.noConfusion hok
      | storyJson m => exact Except.noConfusion hok
      | errText s => exact Except.noConfusion hok
    · have hc' : (n0.front.isDigit && strEndsWith n0 ".json") = false := by simpa using hc
      simp only [collectArtifacts, hc', Bool.false_eq_true, if_false] at hok
      obtain ⟨hmono, hfiles⟩ := ih acc hok
      refine ⟨hmono, fun n c hmem hcand => ?_⟩
      rcases List.mem_cons.mp hmem with heq | hmem'
      · obtain ⟨rfl, -⟩ := Prod.mk.injEq .. ▸ heq
        exact absurd hcand (by simp [hc'])
      · exact hfiles n c hmem' hcand

theorem mergeArts_error (meta : List ArticleRef) (incl : Bool)
    (arts : List (Nat × ArtJson)) (k : Nat) (hk : keyMem arts k)
    (hbig : meta.length ≤ k) : ∃ e, mergeArts meta incl arts = .error e := by
  induction arts with
  | nil => obtain ⟨w, hw⟩ := hk; exact absurd hw (List.not_mem_nil _)
  | cons p rest ih =>
    obtain ⟨k0, a0⟩ := p
    rcases hget : meta.get? k0 with - | ref
    · exact ⟨"IndexError: list index out of range", by simp only [mergeArts, hget]⟩
    · obtain ⟨w, hw⟩ := hk
      rcases List.mem_cons.mp hw with heq | hw'
      · obtain ⟨rfl, -⟩ := Prod.mk.injEq .. ▸ heq
        rw [List.get?_eq_none.mpr hbig] at hget
        exact Option.noConfusion hget
      · obtain ⟨e, he⟩ := ih ⟨w, hw'⟩
        exact ⟨e, by simp only [mergeArts, hget, bind, Except.bind, he]⟩

theorem compileStory_error (incl : Bool) (d : StoryDir) (m : StoryMeta)
    (n : String) (c : FileContent)
    (hg : d.files.getF "story.json" = some (.storyJson m))
    (hmem : (n, c) ∈ d.files)
    (hcand : (n.front.isDigit && strEndsWith n ".json") = true)
    (hbig : m.articles.length ≤ digitVal n.front) :
    ∃ e, compileStory incl d = .error e := by
  rcases hca : collectArtifacts d.files [] with e | arts
  · exact ⟨e, by simp only [compileStory, hg, hca, bind, Except.bind]⟩
  · have hkey : keyMem arts (digitVal n.front) :=
      (collectArtifacts_keyMem d.files [] arts hca).2 n c hmem hcand
    obtain ⟨e, he⟩ := mergeArts_error m.articles incl arts (digitVal n.front) hkey hbig
    exact ⟨e, by simp only [compileStory, hg, hca, bind, Except.bind, he]⟩

theorem collectRecs_error (incl : Bool) (dirs : List StoryDir) (d : StoryDir)
    (hd : d ∈ dirs) (he : ∃ e, compileStory incl d = .error e) :
    ∃ e, collectRecs incl dirs = .error e := by
  induction dirs with
  | nil => exact absurd hd (List.not_mem_nil _)
  | cons d0 rest ih =>
    rcases hc0 : compileStory incl d0 with e0 | o0
    · exact ⟨e0, by simp only [collectRecs, hc0, bind, Except.bind]⟩
    · rcases List.mem_cons.mp hd with rfl | hd'
      · obtain ⟨e, he⟩ := he
        rw [hc0] at he
        exact Except.noConfusion he
      · obtain ⟨e, hrec⟩ := ih hd'
        exact ⟨e, by simp only [collectRecs, hc0, bind, Except.bind, hrec]⟩

/-! ## Claim C9 -/

/-- Claim C9.  If any story directory holds an extraction artifact whose
filename keys (as the code keys it, by `int(f[0])`) an index at or beyond the
number of `ArticleRef`s in that story's `story.json`, the merge loop's
`story_metadata[art_no]` raises an uncaught `IndexError` and the whole
`compile_dataset` run aborts with no output list. -/
theorem C9_out_of_range_artifact_aborts_compile (incl : Bool)
    (dirs : List StoryDir) (d : StoryDir) (m : StoryMeta) (n : String)
    (c : FileContent) (hd : d ∈ dirs)
    (hg : d.files.getF "story.json" = some (.storyJson m))
    (hmem : (n, c) ∈ d.files)
    (hcand : (n.front.isDigit && strEndsWith n ".json") = true)
    (hbig : m.articles.length ≤ digitVal n.front) :
    ∃ e, compile_dataset incl dirs = .error e := by
  obtain ⟨e, he⟩ := collectRecs_error incl dirs d hd
    (compileStory_error incl d m n c hg hmem hcand hbig)
  exact ⟨e, by simp only [compile_dataset, he]; rfl⟩

/-- Witness for C9: a story with one `ArticleRef` but a stray artifact
`3.json` aborts compilation. -/
theorem C9_out_of_range_artifact_aborts_compile_witness :
    ∃ e, compile_dataset true
      [⟨"2020-01-05.foo", [("story.json", .storyJson ⟨"T", [], "S",
          [⟨"A0", "Left", "S0", "u0"⟩]⟩),
        ("3.json", .artJson ⟨"t", "x", "ti", []⟩)]⟩] = .error e :=
  C9_out_of_range_artifact_aborts_compile true _
    ⟨"2020-01-05.foo", [("story.json", .storyJson ⟨"T", [], "S",
        [⟨"A0", "Left", "S0", "u0"⟩]⟩),
      ("3.json", .artJson ⟨"t", "x", "ti", []⟩)]⟩
    ⟨"T", [], "S", [⟨"A0", "Left", "S0", "u0"⟩]⟩
    "3.json" (.artJson ⟨"t", "x", "ti", []⟩)
    (List.mem_singleton.mpr rfl) (by decide) (by decide) (by decide) (by decide)

/-! ## Helper lemmas: mutual exclusion of article artifacts (claim C2) -/


theorem artErrName_congr {i j : Nat} (h : toString i = toString j) :
    artErrName i = artErrName j := by
  unfold artErrName
  rw [h]

theorem artHtmlName_congr {i j : Nat} (h : toString i = toString j) :
    artHtmlName i = artHtmlName j := by
  unfold artHtmlName
  rw [h]

theorem fetchOne_mutex (net : String → FetchResult) (files : Files) (idx : Nat)
    (a : ArticleRef)
    (h : ∀ i : Nat, ¬(files.existsF (artHtmlName i) = true ∧
      files.existsF (artErrName i) = true)) :
    ∀ i : Nat, ¬(((fetchOne net false false files idx a).1).existsF (artHtmlName i) = true ∧
      ((fetchOne net false false files idx a).1).existsF (artErrName i) = true) := by
  unfold fetchOne
  by_cases hs : shouldFetch false false (files.existsF (artHtmlName idx))
      (files.existsF (artErrName idx)) = true
  · rw [if_pos hs]
    have hHE : files.existsF (artHtmlName idx) = false ∧
        files.existsF (artErrName idx) = false := by
      cases hH : files.existsF (artHtmlName idx) <;>
        cases hE : files.existsF (artErrName idx) <;>
          simp_all [shouldFetch]
    rcases net a.url with ⟨c, t⟩ | e
    · by_cases hc : (c == 200) = true
      · simp only [hc, if_true]
        intro i ⟨h1, h2⟩
        rw [existsF_writeF_iff] at h1 h2
        rcases h2 with h2 | h2
        · exact artHtmlName_ne_artErrName idx i h2
        · rcases h1 with h1 | h1
          · have he := artErrName_congr (artHtmlName_inj h1)
            rw [← he, hHE.2] at h2
            exact Bool.false_ne_true h2
          · exact h i ⟨h1, h2⟩
      · have hc' : (c == 200) = false := by simpa using hc
        simp only [hc', Bool.false_eq_true, if_false]
        intro i ⟨h1, h2⟩
        rw [existsF_writeF_iff] at h1 h2
        rcases h1 with h1 | h1
        · exact artHtmlName_ne_artErrName i idx h1.symm
        · rcases h2 with h2 | h2
          · have he := artHtmlName_congr (artErrName_inj h2)
            rw [← he, hHE.1] at h1
            exact Bool.false_ne_true h1
          · exact h i ⟨h1, h2⟩
    · intro i ⟨h1, h2⟩
      rw [existsF_writeF_iff] at h1 h2
      rcases h1 with h1 | h1
      · exact artHtmlName_ne_artErrName i idx h1.symm
      · rcases h2 with h2 | h2
        · have he := artHtmlName_congr (artErrName_inj h2)
          rw [← he, hHE.1] at h1
          exact Bool.false_ne_true h1
        · exact h i ⟨h1, h2⟩
  · rw [if_neg hs]
    exact h

theorem fetchArticles_mutex (net : String → FetchResult) (arts : List ArticleRef)
    (files : Files) (idx : Nat)
    (h : ∀ i : Nat, ¬(files.existsF (artHtmlName i) = true ∧
      files.existsF (artErrName i) = true)) :
    ∀ i : Nat, ¬(((fetchArticles net false false files arts idx).1).existsF
        (artHtmlName i) = true ∧
      ((fetchArticles net false false files arts idx).1).existsF (artErrName i) = true) := by
  induction arts generalizing files idx with
  | nil => exact h
  | cons a rest ih =>
    simp only [fetchArticles]
    exact ih _ _ (fetchOne_mutex net files idx a h)

/-! ## Claim C2 -/

/-- Claim C2, counterexample.  The claim says at most one of `<idx>.html` and
`<idx>.err` exists after any run in every mode, a failed redownload replacing
the old artifact.  `download_articles` never deletes the artifact of the other
kind: with `redownload=true`, refetching an already-fetched article whose
server now answers 404 writes `0.err` while the stale `0.html` stays on disk —
both artifacts persist from the same run. -/
theorem C2_failed_redownload_leaves_both_artifacts :
    download_articles (fun _ => .resp 404 "nf") true false
        [⟨"d", [("story.json", .storyJson ⟨"T", [], "S", [⟨"A0", "Left", "S0", "u0"⟩]⟩),
                ("0.html", .html "old")]⟩] =
      .ok [⟨"d", [("story.json", .storyJson ⟨"T", [], "S", [⟨"A0", "Left", "S0", "u0"⟩]⟩),
                  ("0.html", .html "old"),
                  ("0.err", .errText "<Response [404]>")]⟩] [.req "u0"] ∧
    (Files.existsF [("story.json", .storyJson ⟨"T", [], "S", [⟨"A0", "Left", "S0", "u0"⟩]⟩),
       ("0.html", .html "old"),
       ("0.err", .errText "<Response [404]>")] (artHtmlName 0) = true ∧
     Files.existsF [("story.json", .storyJson ⟨"T", [], "S", [⟨"A0", "Left", "S0", "u0"⟩]⟩),
       ("0.html", .html "old"),
       ("0.err", .errText "<Response [404]>")] (artErrName 0) = true) :=
  ⟨by decide, by decide, by decide⟩

/-- Claim C2, amended.  In normal mode (`redownload=false`,
`retry_errors=false`) the article fetch stage preserves mutual exclusion: if
every story directory starts with at most one of `<idx>.html`/`<idx>.err` per
index, the same holds of every directory after the run (the stage only fetches
articles that have neither artifact, and writes exactly one).  Under
`redownload` or `retry_errors` the stage writes the new artifact without
removing the other kind, so both can persist (see the counterexample). -/
theorem C2_normal_mode_mutual_exclusion (net : String → FetchResult)
    (ds ds' : Stories) (evs : List Ev)
    (hok : download_articles net false false ds = .ok ds' evs)
    (h : ∀ d ∈ ds, mutexAll d) : ∀ d' ∈ ds', mutexAll d' := by
  induction ds generalizing ds' evs with
  | nil =>
    simp only [download_articles] at hok
    cases hok
    exact fun d' hd' => absurd hd' (List.not_mem_nil _)
  | cons d rest ih =>
    rcases hg : d.files.getF "story.json" with - | c
    · simp only [download_articles, hg] at hok
      rcases hrec : download_articles net false false rest with ⟨s, e⟩ | ⟨msg, s, e⟩
      · rw [hrec] at hok
        simp only [consDir, RunResult.ok.injEq] at hok
        obtain ⟨rfl, rfl⟩ := hok
        intro d' hd'
        rcases List.mem_cons.mp hd' with rfl | hd''
        · exact h d' (List.mem_cons_self _ _)
        · exact ih s e hrec (fun x hx => h x (List.mem_cons_of_mem _ hx)) d' hd''
      · rw [hrec] at hok
        simp [consDir] at hok
    · cases c with
      | storyJson m =>
        simp only [download_articles, hg] at hok
        rcases hrec : download_articles net false false rest with ⟨s, e⟩ | ⟨msg, s, e⟩
        · rw [hrec] at hok
          simp only [consDir, prependEvs, RunResult.ok.injEq] at hok
          obtain ⟨rfl, rfl⟩ := hok
          intro d' hd'
          rcases List.mem_cons.mp hd' with rfl | hd''
          · exact fetchArticles_mutex net m.articles d.files 0
              (h d (List.mem_cons_self _ _))
          · exact ih s e hrec (fun x hx => h x (List.mem_cons_of_mem _ hx)) d' hd''
        · rw [hrec] at hok
          simp [consDir, prependEvs] at hok
      | html s' => exact RunResult.noConfusion (by simpa only [download_articles, hg] using hok)
      | artJson a => exact RunResult.noConfusion (by simpa only [download_articles, hg] using hok)
      | errText s' => exact RunResult.noConfusion (by simpa only [download_articles, hg] using hok)

/-- Witness for the amended C2 theorem: a pending article is fetched into an
empty-artifact directory and mutual exclusion holds afterwards. -/
theorem C2_normal_mode_mutual_exclusion_witness :
    mutexAll ⟨"d", [("story.json", .storyJson ⟨"T", [], "S", [⟨"A0", "Left", "S0", "u0"⟩]⟩),
                    ("0.html", .html "page")]⟩ :=
  C2_normal_mode_mutual_exclusion (fun _ => .resp 200 "page")
    [⟨"d", [("story.json", .storyJson ⟨"T", [], "S", [⟨"A0", "Left", "S0", "u0"⟩]⟩)]⟩]
    [⟨"d", [("story.json", .storyJson ⟨"T", [], "S", [⟨"A0", "Left", "S0", "u0"⟩]⟩),
            ("0.html", .html "page")]⟩]
    [.req "u0"] (by decide)
    (by
      intro d hd
      rw [List.mem_singleton] at hd
      subst hd
      intro i ⟨h1, h2⟩
      simp only [Files.existsF, List.any_cons, List.any_nil, Bool.or_false,
        beq_iff_eq] at h1
      exact artHtmlName_ne_storyJson i h1.symm)
    _ (List.mem_singleton.mpr rfl)

/-! ## Claim C3 -/

theorem fetchOne_snd (net : String → FetchResult) (r t : Bool) (files : Files)
    (idx : Nat) (a : ArticleRef) :
    (fetchOne net r t files idx a).2 =
      if shouldFetch r t (files.existsF (artHtmlName idx))
          (files.existsF (artErrName idx)) then [.req a.url] else [] := by
  unfold fetchOne
  split <;> rename_i hs
  · rcases net a.url with ⟨c, t'⟩ | e
    · by_cases hc : (c == 200) = true
      · simp [hc]
      · have hc' : (c == 200) = false := by simpa using hc
        simp [hc']
    · rfl
  · rfl

/-- Claim C3, counterexample.  The claim's skip rule says: skip when the
`.html` artifact exists and the mode is not `forceRefetch`.  When BOTH
artifacts exist (a state the pipeline can reach, see C2) and the mode is
`retryErrors`, the rule says skip, but the code's guard
`retry_errors and os.path.exists(err_file)` fires and the article is fetched:
the run performs a request and overwrites `0.html`. -/
theorem C3_both_artifacts_retry_refetches :
    download_articles (fun u => .resp 200 ("page:" ++ u)) false true
        [⟨"d", [("story.json", .storyJson ⟨"T", [], "S", [⟨"A0", "Left", "S0", "u0"⟩]⟩),
                ("0.html", .html "old"), ("0.err", .errText "e")]⟩] =
      .ok [⟨"d", [("story.json", .storyJson ⟨"T", [], "S", [⟨"A0", "Left", "S0", "u0"⟩]⟩),
                  ("0.html", .html "page:u0"), ("0.err", .errText "e")]⟩]
        [.req "u0"] ∧
    claimSkip false true
      (Files.existsF [("story.json", .storyJson ⟨"T", [], "S", [⟨"A0", "Left", "S0", "u0"⟩]⟩),
          ("0.html", .html "old"), ("0.err", .errText "e")] (artHtmlName 0))
      (Files.existsF [("story.json", .storyJson ⟨"T", [], "S", [⟨"A0", "Left", "S0", "u0"⟩]⟩),
          ("0.html", .html "old"), ("0.err", .errText "e")] (artErrName 0)) = true :=
  ⟨by decide, by decide⟩

/-- Claim C3, amended.  The code's per-article skip rule, exactly: the network
call is skipped iff the mode is not `redownload`, at least one artifact
exists, and it is not the case that the mode is `retryErrors` and the error
artifact exists.  The claim's rule as stated additionally holds whenever the
two artifacts do not coexist — it diverges from the code only in the
both-artifacts-present `retryErrors` state of the counterexample. -/
theorem C3_skip_rule_amended :
    (∀ (net : String → FetchResult) (r t : Bool) (files : Files) (idx : Nat)
        (a : ArticleRef),
      (fetchOne net r t files idx a).2 = [] ↔
        (r = false ∧
         (files.existsF (artHtmlName idx) = true ∨
          files.existsF (artErrName idx) = true) ∧
         ¬(t = true ∧ files.existsF (artErrName idx) = true))) ∧
    (∀ (net : String → FetchResult) (r t : Bool) (files : Files) (idx : Nat)
        (a : ArticleRef),
      ¬(files.existsF (artHtmlName idx) = true ∧
        files.existsF (artErrName idx) = true) →
      ((fetchOne net r t files idx a).2 = [] ↔
        claimSkip r t (files.existsF (artHtmlName idx))
          (files.existsF (artErrName idx)) = true)) := by
  constructor
  · intro net r t files idx a
    rw [fetchOne_snd]
    cases hH : files.existsF (artHtmlName idx) <;>
      cases hE : files.existsF (artErrName idx) <;>
        cases r <;> cases t <;> simp [shouldFetch]
  · intro net r t files idx a hne
    rw [fetchOne_snd]
    cases hH : files.existsF (artHtmlName idx) <;>
      cases hE : files.existsF (artErrName idx) <;>
        cases r <;> cases t <;> simp_all [shouldFetch, claimSkip]

/-- Witness for the amended C3 theorem at a concrete state (html artifact
present, err absent, `retryErrors` mode): the fetch is skipped. -/
theorem C3_skip_rule_amended_witness :
    ((fetchOne (fun _ => FetchResult.resp 200 "x") false true
        [("0.html", .html "old")] 0 ⟨"A0", "Left", "S0", "u0"⟩).2 = [] ↔
      claimSkip false true
        (Files.existsF [("0.html", .html "old")] (artHtmlName 0))
        (Files.existsF [("0.html", .html "old")] (artErrName 0)) = true) :=
  C3_skip_rule_amended.2 (fun _ => FetchResult.resp 200 "x") false true
    [("0.html", .html "old")] 0 ⟨"A0", "Left", "S0", "u0"⟩ (by decide)

/-! ## Helper lemmas: digit-indexed filenames (claim C5) -/

theorem artHtmlName_ne_artJsonName (i j : Nat) : artHtmlName i ≠ artJsonName j := by
  intro h
  have hd := congrArg String.data h
  rw [artHtmlName, artJsonName, String.data_append, String.data_append] at hd
  have h1 : (".html" : String).data = ['.', 'h', 't', 'm'] ++ ['l'] := by decide
  have h2 : (".json" : String).data = ['.', 'j', 's', 'o'] ++ ['n'] := by decide
  rw [h1, h2, ← List.append_assoc, ← List.append_assoc] at hd
  exact concat_ne_of_last_ne (by decide) hd

theorem artJsonName_guard (i : Nat) (hi : i < 10) :
    ((artJsonName i).front.isDigit && strEndsWith (artJsonName i) ".json") = true := by
  interval_cases i <;> decide

theorem artJsonName_digitVal (i : Nat) (hi : i < 10) :
    digitVal (artJsonName i).front = i := by
  interval_cases i <;> decide

theorem artHtmlName_guard (i : Nat) (hi : i < 10) :
    ((artHtmlName i).front.isDigit && strEndsWith (artHtmlName i) ".html") = true := by
  interval_cases i <;> decide

theorem artHtmlName_outputName (i : Nat) (hi : i < 10) :
    String.singleton (artHtmlName i).front ++ ".json" = artJsonName i := by
  interval_cases i <;> decide

theorem storyJson_guard :
    (("story.json" : String).front.isDigit &&
      strEndsWith "story.json" ".json") = false := by
  decide

/-! ## Claim C5 -/

/-- Claim C5, counterexample.  The claim says the extraction artifact for raw
page `<i>.html` is written as `<i>.json` for every position index, including
`i >= 10`.  `parse_all_articles` keys the output by `f[0]`, the FIRST
character of the filename: extracting `11.html` writes `1.json` (the slot of
article 1), and no `11.json` is ever produced. -/
theorem C5_index_truncated_to_first_char :
    parse_all_articles (fun _ => .ok ⟨"t", "x", "ti", []⟩)
        [⟨"d", [("11.html", .html "h")]⟩] ⟨[], []⟩ =
      .ok ([⟨"d", [("11.html", .html "h"),
                   ("1.json", .artJson ⟨"t", "x", "ti", []⟩)]⟩], ⟨[], []⟩) [] ∧
    Files.existsF [("11.html", .html "h"),
      ("1.json", .artJson ⟨"t", "x", "ti", []⟩)] "11.json" = false :=
  ⟨by decide, by decide⟩

/-- Claim C5, amended.  For single-digit positions `i <= 9` the claim holds:
extraction of `<i>.html` is written as `<i>.json`, and compilation merges the
artifact at key `i` with the `ArticleRef` at index `i` of the story record,
copying its `side`, `source` and `url` onto the extracted article.  For
`i >= 10` the code keys both stages by the first character of the filename
(see the counterexample). -/
theorem C5_single_digit_merge_amended (i : Nat) (hi : i < 10)
    (np : String → Except String ArtJson) (s : String) (a : ArtJson)
    (m : StoryMeta) (cwd : Cwd) (dn : String)
    (hnp : np s = .ok a) (hlen : i < m.articles.length) :
    parse_all_articles np [⟨dn, [(artHtmlName i, .html s)]⟩] cwd =
      .ok ([⟨dn, [(artHtmlName i, .html s), (artJsonName i, .artJson a)]⟩], cwd) [] ∧
    compileStory true ⟨dn, [("story.json", .storyJson m),
        (artJsonName i, .artJson a)]⟩ =
      .ok (some ⟨m.title, m.tags, m.summary,
        [(i, ⟨a.title, a.text, some a.top_image, some a.images,
          (m.articles.get ⟨i, hlen⟩).side, (m.articles.get ⟨i, hlen⟩).source,
          (m.articles.get ⟨i, hlen⟩).url⟩)], datePrefix dn⟩) := by
  have hg := artHtmlName_guard i hi
  have hout := artHtmlName_outputName i hi
  have hne : (artHtmlName i == artJsonName i) = false := by
    simp [artHtmlName_ne_artJsonName i i]
  have hg1 := storyJson_guard
  have hg2 := artJsonName_guard i hi
  have hdv := artJsonName_digitVal i hi
  have hsome : m.articles.get? i = some (m.articles.get ⟨i, hlen⟩) :=
    List.get?_eq_get hlen
  have hsj : (("story.json" : String) == "story.json") = true := by decide
  constructor
  · simp only [parse_all_articles, parseFilesLoop, hg, if_true, hout, Files.existsF,
      List.any_cons, List.any_nil, hne, Bool.or_false, Bool.false_eq_true, if_false,
      Files.getF, List.find?, beq_self_eq_true, Option.map_some', hnp, Files.writeF,
      consDirA]
  · simp only [compileStory, Files.getF, List.find?, hsj, Option.map_some',
      collectArtifacts, hg1, Bool.false_eq_true, if_false, hg2, if_true, insertArt,
      hdv, bind, Except.bind, mergeArts, hsome, List.isEmpty_cons, Bool.false_eq_true,
      if_false]

/-- Witness for the amended C5 theorem at `i = 3` with a four-article story. -/
theorem C5_single_digit_merge_amended_witness :
    parse_all_articles (fun _ => .ok ⟨"t", "x", "ti", []⟩)
        [⟨"2020-01-05.foo", [(artHtmlName 3, .html "h")]⟩] ⟨[], []⟩ =
      .ok ([⟨"2020-01-05.foo", [(artHtmlName 3, .html "h"),
                   (artJsonName 3, .artJson ⟨"t", "x", "ti", []⟩)]⟩], ⟨[], []⟩) [] ∧
    compileStory true ⟨"2020-01-05.foo",
        [("story.json", .storyJson ⟨"T", [], "S",
            [⟨"A0", "Left", "S0", "u0"⟩, ⟨"A1", "Center", "S1", "u1"⟩,
             ⟨"A2", "Right", "S2", "u2"⟩, ⟨"A3", "Lean Right", "S3", "u3"⟩]⟩),
         (artJsonName 3, .artJson ⟨"t", "x", "ti", []⟩)]⟩ =
      .ok (some ⟨"T", [], "S",
        [(3, ⟨"t", "x", some "ti", some [], "Lean Right", "S3", "u3"⟩)],
        datePrefix "2020-01-05.foo"⟩) :=
  C5_single_digit_merge_amended 3 (by decide) (fun _ => .ok ⟨"t", "x", "ti", []⟩)
    "h" ⟨"t", "x", "ti", []⟩
    ⟨"T", [], "S", [⟨"A0", "Left", "S0", "u0"⟩, ⟨"A1", "Center", "S1", "u1"⟩,
      ⟨"A2", "Right", "S2", "u2"⟩, ⟨"A3", "Lean Right", "S3", "u3"⟩]⟩
    ⟨[], []⟩ "2020-01-05.foo" rfl (by decide)

/-! ## Helper lemmas: compile output characterization (claim C7) -/



theorem insertArt_ne_nil (l : List (Nat × ArtJson)) (k : Nat) (a : ArtJson) :
    insertArt l k a ≠ [] := by
  cases l with
  | nil => simp [insertArt]
  | cons p l =>
    by_cases h : p.1 = k
    · have hb : (p.1 == k) = true := by simp [h]
      simp [insertArt, hb]
    · have hb : (p.1 == k) = false := by simp [h]
      simp [insertArt, hb]

theorem collectArtifacts_nil_iff (files : List (String × FileContent))
    (acc arts : List (Nat × ArtJson)) (hok : collectArtifacts files acc = .ok arts) :
    (arts = [] ↔ (acc = [] ∧ ∀ p ∈ files,
      (p.1.front.isDigit && strEndsWith p.1 ".json") = false)) := by
  induction files generalizing acc with
  | nil =>
    simp only [collectArtifacts, Except.ok.injEq] at hok
    subst hok
    simp
  | cons q rest ih =>
    obtain ⟨n0, c0⟩ := q
    by_cases hc : (n0.front.isDigit && strEndsWith n0 ".json") = true
    · simp only [collectArtifacts, hc, if_true] at hok
      cases c0 with
      | artJson a0 =>
        have ihx := ih (insertArt acc (digitVal n0.front) a0) hok
        constructor
        · intro hnil
          obtain ⟨hacc, -⟩ := ihx.mp hnil
          exact absurd hacc (insertArt_ne_nil _ _ _)
        · rintro ⟨-, hall⟩
          have := hall (n0, FileContent.artJson a0) (List.mem_cons_self _ _)
          rw [hc] at this
          exact Bool.noConfusion this
      | html s => exact Except.noConfusion hok
      | storyJson mm => exact Except.noConfusion hok
      | errText s => exact Except.noConfusion hok
    · have hc' : (n0.front.isDigit && strEndsWith n0 ".json") = false := by simpa using hc
      simp only [collectArtifacts, hc', Bool.false_eq_true, if_false] at hok
      have ihx := ih acc hok
      rw [ihx]
      constructor
      · rintro ⟨hacc, hall⟩
        refine ⟨hacc, fun p hp => ?_⟩
        rcases List.mem_cons.mp hp with rfl | hp'
        · exact hc'
        · exact hall p hp'
      · rintro ⟨hacc, hall⟩
        exact ⟨hacc, fun p hp => hall p (List.mem_cons_of_mem _ hp)⟩

theorem compileStory_isSome (incl : Bool) (d : StoryDir) (o : Option CompiledRecord)
    (h : compileStory incl d = .ok o) :
    o.isSome = (d.files.existsF "story.json" && hasArtifacts d) := by
  rcases hg : d.files.getF "story.json" with - | c
  · have hex : d.files.existsF "story.json" = false := by
      rcases hb : d.files.existsF "story.json" with - | -
      · rfl
      · rw [existsF_iff_getF, hg] at hb
        simp at hb
    simp only [compileStory, hg] at h
    cases h
    simp [hex]
  · have hex : d.files.existsF "story.json" = true := by
      rw [existsF_iff_getF, hg]
      rfl
    cases c with
    | storyJson m =>
      simp only [compileStory, hg] at h
      rcases hca : collectArtifacts d.files [] with e | arts
      · rw [hca] at h
        simp only [bind, Except.bind] at h
        exact Except.noConfusion h
      · rw [hca] at h
        simp only [bind, Except.bind] at h
        rcases hme : mergeArts m.articles incl arts with e | merged
        · simp only [hme] at h
          exact Except.noConfusion h
        · simp only [hme, Except.ok.injEq] at h
          subst h
          rcases harts : arts with - | ⟨p, rest⟩
          · have hchar := (collectArtifacts_nil_iff d.files [] arts hca).mp harts
            have hart : hasArtifacts d = false := by
              rw [Bool.eq_false_iff]
              intro hcon
              rw [hasArtifacts, List.any_eq_true] at hcon
              obtain ⟨q, hq, hqc⟩ := hcon
              rw [hchar.2 q hq] at hqc
              exact Bool.noConfusion hqc
            simp [harts, hart, hex]
          · have hart : hasArtifacts d = true := by
              by_contra hcon
              rw [Bool.not_eq_true, Bool.eq_false_iff] at hcon
              have hnil : arts = [] := by
                rw [collectArtifacts_nil_iff d.files [] arts hca]
                refine ⟨rfl, fun q hq => ?_⟩
                rw [Bool.eq_false_iff]
                intro hqc
                exact hcon (by rw [hasArtifacts, List.any_eq_true]; exact ⟨q, hq, hqc⟩)
              rw [harts] at hnil
              exact List.noConfusion hnil
            simp [harts, hart, hex]
    | html s =>
      simp only [compileStory, hg] at h
      exact Except.noConfusion h
    | artJson a =>
      simp only [compileStory, hg] at h
      exact Except.noConfusion h
    | errText s =>
      simp only [compileStory, hg] at h
      exact Except.noConfusion h

theorem collectRecs_char (incl : Bool) (dirs : List StoryDir)
    (recs : List CompiledRecord) (h : collectRecs incl dirs = .ok recs) :
    recs = dirs.filterMap (recOf incl) ∧
    ∀ d ∈ dirs, ∃ o, compileStory incl d = .ok o := by
  induction dirs generalizing recs with
  | nil =>
    simp only [collectRecs, Except.ok.injEq] at h
    subst h
    exact ⟨rfl, fun d hd => absurd hd (List.not_mem_nil _)⟩
  | cons d0 rest ih =>
    rcases hc0 : compileStory incl d0 with e | o0
    · simp only [collectRecs, hc0, bind, Except.bind] at h
      exact Except.noConfusion h
    · simp only [collectRecs, hc0, bind, Except.bind] at h
      rcases hrec : collectRecs incl rest with e | tail
      · simp only [hrec] at h
        exact Except.noConfusion h
      · simp only [hrec, Except.ok.injEq] at h
        subst h
        obtain ⟨hmap, hall⟩ := ih tail hrec
        constructor
        · rw [List.filterMap_cons]
          have hro : recOf incl d0 = o0 := by
            rw [recOf, hc0]
          rw [hro, ← hmap]
          cases o0 <;> rfl
        · intro d hd
          rcases List.mem_cons.mp hd with rfl | hd'
          · exact ⟨o0, hc0⟩
          · exact hall d hd'

/-! ## Claim C7 -/

/-- Claim C7.  When `compile_dataset` returns a list, that list is the
date-sorted (non-decreasing, by the date prefix of the directory name stored
in each record) permutation of the records collected per directory, a
directory contributes a record exactly when it has both a persisted
`story.json` and at least one extraction artifact, and directories lacking
either contribute nothing. -/
theorem C7_compiled_record_iff (incl : Bool) (dirs : List StoryDir)
    (l : List CompiledRecord) (h : compile_dataset incl dirs = .ok l) :
    List.Sorted dateLe l ∧
    ∃ recs, collectRecs incl dirs = .ok recs ∧
      l = recs.insertionSort dateLe ∧ l.Perm recs ∧
      recs = dirs.filterMap (recOf incl) ∧
      ∀ d ∈ dirs, ∃ o, compileStory incl d = .ok o ∧
        o.isSome = (d.files.existsF "story.json" && hasArtifacts d) := by
  rcases hcr : collectRecs incl dirs with e | recs
  · rw [compile_dataset, hcr] at h
    exact Except.noConfusion h
  · rw [compile_dataset, hcr] at h
    simp only [Except.map, Except.ok.injEq] at h
    subst h
    obtain ⟨hmap, hall⟩ := collectRecs_char incl dirs recs hcr
    refine ⟨List.sorted_insertionSort dateLe recs, recs, ?_, ?_, ?_, ?_, ?_⟩
    · rfl
    · rfl
    · exact List.perm_insertionSort dateLe recs
    · exact hmap
    · intro d hd
      obtain ⟨o, ho⟩ := hall d hd
      exact ⟨o, ho, compileStory_isSome incl d o ho⟩

/-- Witness for C7: one story with an artifact and a later-dated empty one;
only the first contributes, and the output is the sorted singleton. -/
theorem C7_compiled_record_iff_witness :
    List.Sorted dateLe
      [⟨"T", [], "S", [(0, ⟨"t", "x", some "ti", some [], "Left", "S0", "u0"⟩)],
        "2020-01-06"⟩] ∧
    ∃ recs, collectRecs true
        [⟨"2020-01-06.b", [("story.json", .storyJson ⟨"T", [], "S",
            [⟨"A0", "Left", "S0", "u0"⟩]⟩),
          ("0.json", .artJson ⟨"t", "x", "ti", []⟩)]⟩,
         ⟨"2020-01-05.a", [("story.json", .storyJson ⟨"T", [], "S",
            [⟨"A0", "Left", "S0", "u0"⟩]⟩)]⟩] = .ok recs ∧
      [⟨"T", [], "S", [(0, ⟨"t", "x", some "ti", some [], "Left", "S0", "u0"⟩)],
        "2020-01-06"⟩] = recs.insertionSort dateLe ∧
      ([⟨"T", [], "S", [(0, ⟨"t", "x", some "ti", some [], "Left", "S0", "u0"⟩)],
        "2020-01-06"⟩] : List CompiledRecord).Perm recs ∧
      recs = ([⟨"2020-01-06.b", [("story.json", .storyJson ⟨"T", [], "S",
            [⟨"A0", "Left", "S0", "u0"⟩]⟩),
          ("0.json", .artJson ⟨"t", "x", "ti", []⟩)]⟩,
         ⟨"2020-01-05.a", [("story.json", .storyJson ⟨"T", [], "S",
            [⟨"A0", "Left", "S0", "u0"⟩]⟩)]⟩] : List StoryDir).filterMap (recOf true) ∧
      ∀ d ∈ ([⟨"2020-01-06.b", [("story.json", .storyJson ⟨"T", [], "S",
            [⟨"A0", "Left", "S0", "u0"⟩]⟩),
          ("0.json", .artJson ⟨"t", "x", "ti", []⟩)]⟩,
         ⟨"2020-01-05.a", [("story.json", .storyJson ⟨"T", [], "S",
            [⟨"A0", "Left", "S0", "u0"⟩]⟩)]⟩] : List StoryDir),
        ∃ o, compileStory true d = .ok o ∧
          o.isSome = (d.files.existsF "story.json" && hasArtifacts d) :=
  C7_compiled_record_iff true
    [⟨"2020-01-06.b", [("story.json", .storyJson ⟨"T", [], "S",
        [⟨"A0", "Left", "S0", "u0"⟩]⟩),
      ("0.json", .artJson ⟨"t", "x", "ti", []⟩)]⟩,
     ⟨"2020-01-05.a", [("story.json", .storyJson ⟨"T", [], "S",
        [⟨"A0", "Left", "S0", "u0"⟩]⟩)]⟩]
    [⟨"T", [], "S", [(0, ⟨"t", "x", some "ti", some [], "Left", "S0", "u0"⟩)],
      "2020-01-06"⟩]
    (by rfl)
